import Mathlib

/-!
Verification of the agentmap structural definition extractor, diff
attribution, scanner pipeline and map generation against their
natural-language specification.

The TypeScript sources are shallowly embedded: tree-sitter syntax nodes
become an inductive tree (`SyntaxNode`), JavaScript loops over children
become folds over lists, JavaScript string truthiness (`if (name)`) is
modelled explicitly (`truthyName`), and the per-language kind tables are
copied verbatim.  External collaborators (file system, git, js-yaml,
picomatch) are passed in as explicit data so that the pure decision
structure of the code can be analysed.
-/

namespace AgentMap

/-- The closed language enumeration (`Language` in `types.ts`). -/
inductive Language where
  | typescript
  | javascript
  | python
  | rust
  | go
  | zig
  | cpp
deriving DecidableEq, Repr

/-- The definition kinds used by `definitions.ts` (`DefinitionType`).
`class_`/`typeAlias` stand for the source strings `'class'`/`'type'`. -/
inductive DefinitionType where
  | function
  | class_
  | struct
  | trait
  | interface
  | typeAlias
  | enum
  | const
  | union
deriving DecidableEq, Repr

/-- Git status for a definition (`DefinitionStatus` in `types.ts`). -/
inductive DefinitionStatus where
  | added
  | updated
deriving DecidableEq, Repr

/-- Git diff stats for a definition (`DefinitionDiff` in `types.ts`). -/
structure DefinitionDiff where
  status : DefinitionStatus
  added : Nat
  deleted : Nat
deriving DecidableEq, Repr

/-- A definition extracted from source code (`Definition` in `types.ts`).
`line`/`endLine` are 1-based; `externLinkage` models the optional
`extern` flag (absent ≙ `false`); `diff` is only set by diff attribution. -/
structure Definition where
  name : String
  line : Nat
  endLine : Nat
  kind : DefinitionType
  exported : Bool
  externLinkage : Bool := false
  diff : Option DefinitionDiff := none
deriving DecidableEq, Repr

/-- A tree-sitter syntax node: kind string (`node.type`), source text
(`node.text`), 0-based start/end rows (`startPosition.row`,
`endPosition.row`), ordered children, and field-name lookup table. -/
inductive SyntaxNode where
  | mk (kind : String) (text : String) (startRow : Nat) (endRow : Nat)
       (children : List SyntaxNode) (fields : List (String × SyntaxNode))

def SyntaxNode.kind : SyntaxNode → String
  | .mk k _ _ _ _ _ => k

def SyntaxNode.text : SyntaxNode → String
  | .mk _ t _ _ _ _ => t

def SyntaxNode.startRow : SyntaxNode → Nat
  | .mk _ _ s _ _ _ => s

def SyntaxNode.endRow : SyntaxNode → Nat
  | .mk _ _ _ e _ _ => e

def SyntaxNode.children : SyntaxNode → List SyntaxNode
  | .mk _ _ _ _ cs _ => cs

def SyntaxNode.fields : SyntaxNode → List (String × SyntaxNode)
  | .mk _ _ _ _ _ fs => fs

/-- `node.childForFieldName(f)` — first field entry with the given name. -/
def SyntaxNode.childForFieldName (n : SyntaxNode) (f : String) : Option SyntaxNode :=
  ((n.fields.find? (fun p => p.1 == f)).map (fun p => p.2))

/-- Minimum body lines for a function/class to be included in defs. -/
def MIN_BODY_LINES : Nat := 5

/-- Node types that represent functions per language. -/
def FUNCTION_TYPES : Language → List String
  | .typescript => ["function_declaration", "method_definition"]
  | .javascript => ["function_declaration", "method_definition"]
  | .python => ["function_definition"]
  | .rust => ["function_item"]
  | .go => ["function_declaration", "method_declaration"]
  | .zig => ["function_declaration", "test_declaration"]
  | .cpp => ["function_definition"]

/-- Node types that represent classes per language. -/
def CLASS_TYPES : Language → List String
  | .typescript => ["class_declaration", "abstract_class_declaration"]
  | .javascript => ["class_declaration"]
  | .python => ["class_definition"]
  | .rust => []
  | .go => []
  | .zig => []
  | .cpp => ["class_specifier"]

/-- Node types that represent structs per language. -/
def STRUCT_TYPES : Language → List String
  | .typescript => []
  | .javascript => []
  | .python => []
  | .rust => ["struct_item"]
  | .go => []
  | .zig => []
  | .cpp => ["struct_specifier"]

/-- Node types that represent traits per language. -/
def TRAIT_TYPES : Language → List String
  | .rust => ["trait_item"]
  | _ => []

/-- Node types that represent interfaces per language. -/
def INTERFACE_TYPES : Language → List String
  | .typescript => ["interface_declaration"]
  | _ => []

/-- Node types that represent type aliases per language. -/
def TYPE_TYPES : Language → List String
  | .typescript => ["type_alias_declaration"]
  | .javascript => []
  | .python => []
  | .rust => ["type_item"]
  | .go => ["type_declaration"]
  | .zig => []
  | .cpp => ["type_definition", "alias_declaration"]

/-- Node types that represent enums per language. -/
def ENUM_TYPES : Language → List String
  | .typescript => ["enum_declaration"]
  | .javascript => []
  | .python => []
  | .rust => ["enum_item"]
  | .go => []
  | .zig => []
  | .cpp => ["enum_specifier"]

/-- Node types that represent constants per language. -/
def CONST_TYPES : Language → List String
  | .typescript => ["lexical_declaration"]
  | .javascript => ["lexical_declaration"]
  | .python => []
  | .rust => ["const_item", "static_item"]
  | .go => ["const_declaration", "var_declaration"]
  | .zig => ["variable_declaration"]
  | .cpp => ["declaration"]

/-- JavaScript string truthiness for `string | null` values: `null` and
the empty string are falsy.  `truthyName o = some s` exactly when the
source's `if (name)` guard passes, and then `s` is non-empty. -/
def truthyName : Option String → Option String
  | some s => if s.isEmpty then none else some s
  | none => none

/-- `s.includes(pat)` for a non-empty pattern. -/
def strIncludes (s pat : String) : Bool :=
  (s.splitOn pat).length != 1

/-- Check if a TS/JS node is an export statement (`isExportStatement`). -/
def isExportStatement (node : SyntaxNode) : Bool :=
  node.kind == "export_statement"

/-- Unwrap export statement to get the actual declaration (`unwrapExport`):
the first child that is not the `export` keyword, a comment, or `default`. -/
def unwrapExport (node : SyntaxNode) : SyntaxNode :=
  if node.kind == "export_statement" then
    match node.children.find? (fun c =>
        c.kind != "export" && !(strIncludes c.kind "comment") && c.kind != "default") with
    | some c => c
    | none => node
  else node

/-- Check if a Zig node has a `pub` modifier (`isZigPub`): scan children,
stopping at the first `identifier` or `block`. -/
def isZigPub (node : SyntaxNode) : Bool :=
  isZigPubGo node.children
where
  isZigPubGo : List SyntaxNode → Bool
    | [] => false
    | c :: cs =>
      if c.kind == "pub" then true
      else if c.kind == "identifier" || c.kind == "block" then false
      else isZigPubGo cs

/-- Check if a Zig variable_declaration uses `const`, not `var` (`isZigConst`). -/
def isZigConst (node : SyntaxNode) : Bool :=
  isZigConstGo node.children
where
  isZigConstGo : List SyntaxNode → Bool
    | [] => false
    | c :: cs =>
      if c.kind == "const" then true
      else if c.kind == "var" then false
      else isZigConstGo cs

/-- Check if a Zig variable_declaration contains a struct/enum/union
declaration (`getZigTypeDeclaration`). -/
def getZigTypeDeclaration (node : SyntaxNode) : Option DefinitionType :=
  getZigTypeDeclarationGo node.children
where
  getZigTypeDeclarationGo : List SyntaxNode → Option DefinitionType
    | [] => none
    | c :: cs =>
      if c.kind == "struct_declaration" then some .struct
      else if c.kind == "union_declaration" then some .union
      else if c.kind == "enum_declaration" then some .enum
      else getZigTypeDeclarationGo cs

/-- Check if a Zig function has an `extern` modifier (`isZigExtern`):
scan children, stopping at the first `block` or `fn`. -/
def isZigExternLinkage (node : SyntaxNode) : Bool :=
  isZigExternLinkageGo node.children
where
  isZigExternLinkageGo : List SyntaxNode → Bool
    | [] => false
    | c :: cs =>
      if c.kind == "extern" then true
      else if c.kind == "block" || c.kind == "fn" then false
      else isZigExternLinkageGo cs

/-- Check if a Rust node has a `pub` visibility modifier (`isRustPub`):
scan children, stopping at the first `identifier` or `type_identifier`. -/
def isRustPub (node : SyntaxNode) : Bool :=
  isRustPubGo node.children
where
  isRustPubGo : List SyntaxNode → Bool
    | [] => false
    | c :: cs =>
      if c.kind == "visibility_modifier" then c.text.startsWith "pub"
      else if c.kind == "identifier" || c.kind == "type_identifier" then false
      else isRustPubGo cs

/-- Check if a Go identifier is exported: first character is uppercase
(`isGoExported`, for the non-null case). -/
def isGoExported (name : String) : Bool :=
  match name.data with
  | [] => false
  | c :: _ => decide ('A' ≤ c) && decide (c ≤ 'Z')

/-- Check if a C++ node has extern storage class (`isCppExtern`). -/
def isCppExternLinkage (node : SyntaxNode) : Bool :=
  if node.kind == "declaration" || node.kind == "function_definition" then
    node.children.any (fun c => c.kind == "storage_class_specifier" && c.text == "extern")
  else false

/-- Find a child node by type (`findChild`). -/
def findChild (node : SyntaxNode) (t : String) : Option SyntaxNode :=
  node.children.find? (fun c => c.kind == t)

/-- Get the number of lines in a node's body (`getBodyLineCount`):
`endPosition.row - startPosition.row + 1`. -/
def getBodyLineCount (node : SyntaxNode) : Nat :=
  node.endRow - node.startRow + 1

/-- `extractJSName`: first child whose kind is `identifier`,
`type_identifier`, or `property_identifier`. -/
def extractJSName (node : SyntaxNode) : Option String :=
  (node.children.find? (fun c =>
      c.kind == "identifier" || c.kind == "type_identifier" ||
      c.kind == "property_identifier")).map SyntaxNode.text

/-- `extractPythonName`: first `identifier` child. -/
def extractPythonName (node : SyntaxNode) : Option String :=
  (node.children.find? (fun c => c.kind == "identifier")).map SyntaxNode.text

/-- `extractRustName`: for `impl_item` the name is the implemented type;
otherwise the first `identifier`/`type_identifier` child. -/
def extractRustName (node : SyntaxNode) : Option String :=
  if node.kind == "impl_item" then
    match node.childForFieldName "type" with
    | some typeNode =>
      let ident := if typeNode.kind == "type_identifier" then some typeNode
                   else findChild typeNode "type_identifier"
      ident.map SyntaxNode.text
    | none =>
      (node.children.find? (fun c =>
          c.kind == "identifier" || c.kind == "type_identifier")).map SyntaxNode.text
  else
    (node.children.find? (fun c =>
        c.kind == "identifier" || c.kind == "type_identifier")).map SyntaxNode.text

/-- `extractGoName`: for `type_declaration` the name of its `type_spec`;
otherwise the first `identifier`/`field_identifier` child. -/
def extractGoName (node : SyntaxNode) : Option String :=
  if node.kind == "type_declaration" then
    match findChild node "type_spec" with
    | some spec => (spec.childForFieldName "name").map SyntaxNode.text
    | none =>
      (node.children.find? (fun c =>
          c.kind == "identifier" || c.kind == "field_identifier")).map SyntaxNode.text
  else
    (node.children.find? (fun c =>
        c.kind == "identifier" || c.kind == "field_identifier")).map SyntaxNode.text

/-- Strip surrounding double quotes from a Zig test name string. -/
def stripQuotes (text : String) : String :=
  if text.startsWith "\x22" && text.endsWith "\x22" then
    (text.drop 1).dropRight 1
  else text

/-- `extractZigName`: for `test_declaration` the first `string` child
(quotes stripped) or `identifier` child; otherwise the first
`identifier` child. -/
def extractZigName (node : SyntaxNode) : Option String :=
  if node.kind == "test_declaration" then
    match node.children.find? (fun c => c.kind == "string" || c.kind == "identifier") with
    | some c => if c.kind == "string" then some (stripQuotes c.text) else some c.text
    | none => none
  else
    (node.children.find? (fun c => c.kind == "identifier")).map SyntaxNode.text

/-- The fallthrough loop at the bottom of `extractCppName`: first
`identifier`/`type_identifier` child. -/
def cppGenericName (node : SyntaxNode) : Option String :=
  (node.children.find? (fun c =>
      c.kind == "identifier" || c.kind == "type_identifier")).map SyntaxNode.text

/-- `extractCppName`, with the JS control flow (early returns versus
falling through to the generic loop) reproduced branch by branch. -/
def extractCppName (node : SyntaxNode) : Option String :=
  if node.kind == "function_definition" then
    match node.childForFieldName "declarator" with
    | some declarator =>
      match (if declarator.kind == "function_declarator" then some declarator
             else findChild declarator "function_declarator") with
      | some funcDecl =>
        match funcDecl.childForFieldName "declarator" with
        | some innerDecl =>
          if innerDecl.kind == "identifier" then some innerDecl.text
          else if innerDecl.kind == "qualified_identifier" then
            (innerDecl.childForFieldName "name").map SyntaxNode.text
          else cppGenericName node
        | none => cppGenericName node
      | none => cppGenericName node
    | none => cppGenericName node
  else if node.kind == "struct_specifier" || node.kind == "class_specifier" ||
      node.kind == "enum_specifier" then
    match node.childForFieldName "name" with
    | some nameNode => some nameNode.text
    | none =>
      match node.children.find? (fun c => c.kind == "type_identifier") with
      | some c => some c.text
      | none => cppGenericName node
  else if node.kind == "type_definition" then
    match node.childForFieldName "declarator" with
    | some declarator =>
      if declarator.kind == "type_identifier" then some declarator.text
      else cppGenericName node
    | none => cppGenericName node
  else if node.kind == "alias_declaration" then
    (node.childForFieldName "name").map SyntaxNode.text
  else if node.kind == "declaration" then
    match node.childForFieldName "declarator" with
    | some declarator =>
      if declarator.kind == "identifier" then some declarator.text
      else if declarator.kind == "init_declarator" then
        match declarator.childForFieldName "declarator" with
        | some innerDecl =>
          if innerDecl.kind == "identifier" then some innerDecl.text
          else cppGenericName node
        | none => cppGenericName node
      else cppGenericName node
    | none => cppGenericName node
  else cppGenericName node

/-- `extractName`: try the `name` field first, then the per-language
fallback walk. -/
def extractName (node : SyntaxNode) (language : Language) : Option String :=
  match node.childForFieldName "name" with
  | some nameNode => some nameNode.text
  | none =>
    match language with
    | .typescript => extractJSName node
    | .javascript => extractJSName node
    | .python => extractPythonName node
    | .rust => extractRustName node
    | .go => extractGoName node
    | .zig => extractZigName node
    | .cpp => extractCppName node

/-- `extractConstName`: name of a const/let style declaration. -/
def extractConstName (node : SyntaxNode) (language : Language) : Option String :=
  match language with
  | .typescript =>
    match node.children.find? (fun c => c.kind == "variable_declarator") with
    | some child => (child.childForFieldName "name").map SyntaxNode.text
    | none => none
  | .javascript =>
    match node.children.find? (fun c => c.kind == "variable_declarator") with
    | some child => (child.childForFieldName "name").map SyntaxNode.text
    | none => none
  | .rust => extractName node .rust
  | .go =>
    match node.children.find? (fun c => c.kind == "const_spec" || c.kind == "var_spec") with
    | some child => (child.childForFieldName "name").map SyntaxNode.text
    | none => none
  | .zig => extractZigName node
  | .cpp => extractCppName node
  | .python => none

/-- Result of `extractArrowFunction`. -/
structure ArrowFnInfo where
  name : String
  line : Nat
  endLine : Nat
  bodyLines : Nat
deriving DecidableEq, Repr

/-- `extractArrowFunction`: first `variable_declarator` child whose
`value` field is an `arrow_function` (and which has a `name` field);
line range is that of the whole declaration statement. -/
def extractArrowFunction (node : SyntaxNode) : Option ArrowFnInfo :=
  if node.kind != "lexical_declaration" then none
  else arrowGo node node.children
where
  arrowGo (node : SyntaxNode) : List SyntaxNode → Option ArrowFnInfo
    | [] => none
    | declarator :: rest =>
      if declarator.kind != "variable_declarator" then arrowGo node rest
      else
        match declarator.childForFieldName "name",
              declarator.childForFieldName "value" with
        | some nameNode, some valueNode =>
          if valueNode.kind == "arrow_function" then
            some { name := nameNode.text
                   line := node.startRow + 1
                   endLine := node.endRow + 1
                   bodyLines := getBodyLineCount valueNode }
          else arrowGo node rest
        | _, _ => arrowGo node rest

/-- `resolveExported`: Go decides export status per name (uppercase
first letter); everything else uses the statement-level flag. -/
def resolveExported (language : Language) (exported : Bool) (name : String) : Bool :=
  if language == .go then isGoExported name else exported

/-- The `createDef` helper closed over the statement-level context. -/
def createDef (language : Language) (exported externLk : Bool) (name : String)
    (kind : DefinitionType) (startLine endLine : Nat) : Definition :=
  { name := name
    line := startLine
    endLine := endLine
    kind := kind
    exported := resolveExported language exported name
    externLinkage := externLk }

/-- `extractJSDeclarations`: all declarations of a TS/JS
`lexical_declaration`; arrow-function values are reclassified as
`function` and size filtered, plain values become `const`. -/
def extractJSDeclarations (node : SyntaxNode) (language : Language)
    (exported externLk : Bool) : List Definition :=
  if node.kind != "lexical_declaration" then
    match truthyName (extractConstName node language) with
    | some name =>
      [{ name := name
         line := node.startRow + 1
         endLine := node.endRow + 1
         kind := .const
         exported := exported
         externLinkage := externLk }]
    | none => []
  else
    node.children.filterMap (fun child =>
      if child.kind != "variable_declarator" then none
      else
        match child.childForFieldName "name" with
        | none => none
        | some nameNode =>
          let valueNode := child.childForFieldName "value"
          let isArrowFn := match valueNode with
            | some v => v.kind == "arrow_function"
            | none => false
          let kind : DefinitionType := if isArrowFn then .function else .const
          let small := match valueNode with
            | some v => isArrowFn && decide (getBodyLineCount v ≤ MIN_BODY_LINES)
            | none => false
          if small then none
          else some
            { name := nameNode.text
              line := child.startRow + 1
              endLine := child.endRow + 1
              kind := kind
              exported := exported
              externLinkage := externLk })

/-- The export/unwrap step of `extractDefinition`'s language switch. -/
def actualNodeOf (language : Language) (node : SyntaxNode) : SyntaxNode :=
  match language with
  | .typescript => unwrapExport node
  | .javascript => unwrapExport node
  | _ => node

/-- The exported-flag step of `extractDefinition`'s language switch. -/
def exportedOf (language : Language) (node : SyntaxNode) : Bool :=
  match language with
  | .typescript => isExportStatement node
  | .javascript => isExportStatement node
  | .zig => isZigPub node
  | .rust => isRustPub node
  | _ => false

/-- The extern-flag step of `extractDefinition`'s language switch. -/
def externOf (language : Language) (node : SyntaxNode) (forcedExtern : Bool) : Bool :=
  match language with
  | .zig => forcedExtern || isZigExternLinkage node
  | .cpp => forcedExtern || isCppExternLinkage node
  | _ => forcedExtern

/-- A size-filtered category branch of `extractDefinition` (functions,
classes, structs, traits): requires a truthy name and a body strictly
larger than `MIN_BODY_LINES`. -/
def sizedBranch (language : Language) (exported externLk : Bool)
    (actualNode : SyntaxNode) (kind : DefinitionType) : List Definition :=
  match truthyName (extractName actualNode language) with
  | some name =>
    if getBodyLineCount actualNode > MIN_BODY_LINES then
      [createDef language exported externLk name kind
        (actualNode.startRow + 1) (actualNode.endRow + 1)]
    else []
  | none => []

/-- An unfiltered category branch of `extractDefinition` (interfaces,
type aliases, enums): requires only a truthy name. -/
def unsizedBranch (language : Language) (exported externLk : Bool)
    (actualNode : SyntaxNode) (kind : DefinitionType) : List Definition :=
  match truthyName (extractName actualNode language) with
  | some name =>
    [createDef language exported externLk name kind
      (actualNode.startRow + 1) (actualNode.endRow + 1)]
  | none => []

/-- The constant/variable branch of `extractDefinition`. -/
def constBranch (language : Language)
    (exported externLk : Bool) (actualNode : SyntaxNode) : List Definition :=
  match language with
  | .zig =>
    if !(exported && isZigConst actualNode) then []
    else
      match truthyName (extractZigName actualNode) with
      | some name =>
        let kind := (getZigTypeDeclaration actualNode).getD .const
        [createDef language exported externLk name kind
          (actualNode.startRow + 1) (actualNode.endRow + 1)]
      | none => []
  | .typescript => jsConstBranch .typescript exported externLk actualNode
  | .javascript => jsConstBranch .javascript exported externLk actualNode
  | _ =>
    match truthyName (extractConstName actualNode language) with
    | some name =>
      [createDef language exported externLk name .const
        (actualNode.startRow + 1) (actualNode.endRow + 1)]
    | none => []
where
  /-- TS/JS: non-exported statements only surface a sizeable arrow
  function; exported statements expand every declaration. -/
  jsConstBranch (language : Language) (exported externLk : Bool)
      (actualNode : SyntaxNode) : List Definition :=
    if !exported then
      match extractArrowFunction actualNode with
      | some arrowFn =>
        if arrowFn.bodyLines > MIN_BODY_LINES then
          [{ name := arrowFn.name
             line := arrowFn.line
             endLine := arrowFn.endLine
             kind := .function
             exported := false }]
        else []
      | none => []
    else extractJSDeclarations actualNode language exported externLk

/-- `extractDefinition`: classify the (unwrapped) node against the
per-language kind tables, first match wins. -/
def extractDefinition (node : SyntaxNode) (language : Language)
    (forcedExtern : Bool) : List Definition :=
  let exported := exportedOf language node
  let actualNode := actualNodeOf language node
  let externLk := externOf language node forcedExtern
  if (FUNCTION_TYPES language).contains actualNode.kind then
    sizedBranch language exported externLk actualNode .function
  else if (CLASS_TYPES language).contains actualNode.kind then
    sizedBranch language exported externLk actualNode .class_
  else if (STRUCT_TYPES language).contains actualNode.kind then
    sizedBranch language exported externLk actualNode .struct
  else if (TRAIT_TYPES language).contains actualNode.kind then
    sizedBranch language exported externLk actualNode .trait
  else if (INTERFACE_TYPES language).contains actualNode.kind then
    unsizedBranch language exported externLk actualNode .interface
  else if (TYPE_TYPES language).contains actualNode.kind then
    unsizedBranch language exported externLk actualNode .typeAlias
  else if (ENUM_TYPES language).contains actualNode.kind then
    unsizedBranch language exported externLk actualNode .enum
  else if (CONST_TYPES language).contains actualNode.kind then
    constBranch language exported externLk actualNode
  else []

/-- One step of the `seenNames` first-occurrence deduplication loop in
`extractDefinitions`: append each definition whose name is new. -/
def addDefs (st : List Definition × List String) (defs : List Definition) :
    List Definition × List String :=
  defs.foldl (fun st d =>
    if st.2.contains d.name then st else (st.1 ++ [d], st.2 ++ [d.name])) st

/-- `extractDefinitions`: walk the root's immediate children (expanding
C++ `linkage_specification` blocks), deduplicating by name. -/
def extractDefinitions (rootNode : SyntaxNode) (language : Language) :
    List Definition :=
  (rootNode.children.foldl (fun st node =>
    if language == .cpp && node.kind == "linkage_specification" then
      node.children.foldl (fun st inner =>
        if inner.kind == "extern" || inner.kind == "string_literal" then st
        else addDefs st (extractDefinition inner .cpp true)) st
    else addDefs st (extractDefinition node language false)) ([], [])).1

/-- The definitions contributed by one top-level child, before
deduplication (the C++ linkage special case included). -/
def nodeDefs (language : Language) (node : SyntaxNode) : List Definition :=
  if language == .cpp && node.kind == "linkage_specification" then
    node.children.foldl (fun acc inner =>
      if inner.kind == "extern" || inner.kind == "string_literal" then acc
      else acc ++ extractDefinition inner .cpp true) []
  else extractDefinition node language false

/-- All definitions in top-level child order, before deduplication. -/
def allDefs (rootNode : SyntaxNode) (language : Language) : List Definition :=
  rootNode.children.foldl (fun acc node => acc ++ nodeDefs language node) []

/-- Git diff stats for a file (`FileDiffStats` in `types.ts`). -/
structure FileDiffStats where
  added : Nat
  deleted : Nat
deriving DecidableEq, Repr

/-- A hunk from git diff output (`DiffHunk` in `types.ts`). -/
structure DiffHunk where
  oldStart : Nat
  oldCount : Nat
  newStart : Nat
  newCount : Nat
deriving DecidableEq, Repr

/-- Parsed diff for a single file (`FileDiff` in `types.ts`). -/
structure FileDiff where
  path : String
  hunks : List DiffHunk
deriving DecidableEq, Repr

/-- Length of the interval intersection `[a, b) ∩ [lo, hi)`. -/
def clipLen (a b lo hi : Nat) : Nat :=
  min b hi - max a lo

/-- Modelled from the spec: whether a hunk's new-side interval
`[newStart, newStart+newCount)` intersects a definition's line span
`[line, endLine]` (§4.4 core algorithm; `git-status.ts` is not in the
sources, only its callers are). -/
def hunkIntersects (h : DiffHunk) (d : Definition) : Bool :=
  decide (0 < clipLen h.newStart (h.newStart + h.newCount) d.line (d.endLine + 1))

/-- Modelled from the spec: added lines of a hunk clipped to the
overlap with the definition's span (§4.4 "restricted to the
definition's line span (clipped to the overlap, not the whole hunk)"). -/
def addedInOverlap (h : DiffHunk) (d : Definition) : Nat :=
  clipLen h.newStart (h.newStart + h.newCount) d.line (d.endLine + 1)

/-- Modelled from the spec: deleted lines of a hunk clipped to the
definition's span, with the old-side lines of a hunk laid out from
`newStart` (§4.4 flags exact per-definition deleted counts as an open
approximation; this clipping realises "clipped to the overlap"). -/
def deletedInOverlap (h : DiffHunk) (d : Definition) : Nat :=
  clipLen h.newStart (h.newStart + h.oldCount) d.line (d.endLine + 1)

/-- Modelled from the spec: the definition's entire range falls inside
the hunks' new-side regions (§4.4 `added` status condition). -/
def coveredByHunks (hunks : List DiffHunk) (d : Definition) : Bool :=
  (List.range' d.line (d.endLine + 1 - d.line)).all (fun ln =>
    hunks.any (fun h => h.newStart ≤ ln && ln < h.newStart + h.newCount))

/-- Modelled from the spec: annotate one definition from the file's
hunk list (§4.4): no intersecting hunk → unchanged; all intersecting
hunks pure additions covering the whole span → `added`; otherwise
`updated`; counts are sums of per-hunk clipped overlaps. -/
def attributeDiff (hunks : List DiffHunk) (d : Definition) : Definition :=
  let inter := hunks.filter (fun h => hunkIntersects h d)
  if inter.isEmpty then d
  else
    let addedCount := (inter.map (fun h => addedInOverlap h d)).sum
    let deletedCount := (inter.map (fun h => deletedInOverlap h d)).sum
    let isAdded := inter.all (fun h => h.oldCount == 0) && coveredByHunks inter d
    { d with diff := some {
        status := if isAdded then .added else .updated
        added := addedCount
        deleted := deletedCount } }

/-- Modelled from the spec: `applyDiffToDefinitions` annotates each
definition of a file against that file's parsed diff (§4.4;
`git-status.ts` is not in the sources). -/
def applyDiffToDefinitions (defs : List Definition) (fd : FileDiff) : List Definition :=
  defs.map (attributeDiff fd.hunks)

/-- The extension table of `parser/languages.ts` (`LANGUAGE_EXTENSIONS`). -/
def LANGUAGE_EXTENSIONS : List (String × Language) :=
  [(".ts", .typescript), (".tsx", .typescript), (".mts", .typescript), (".cts", .typescript),
   (".js", .javascript), (".jsx", .javascript), (".mjs", .javascript), (".cjs", .javascript),
   (".py", .python), (".pyi", .python),
   (".rs", .rust), (".go", .go), (".zig", .zig),
   (".c", .cpp), (".h", .cpp), (".cpp", .cpp), (".cc", .cpp), (".cxx", .cpp),
   (".hpp", .cpp), (".hxx", .cpp)]

/-- `filepath.slice(filepath.lastIndexOf('.'))`: the extension including
the dot, or (per JS `slice(-1)` when there is no dot) the last character. -/
def extOf (filepath : String) : String :=
  if filepath.data.contains '.' then
    String.mk ('.' :: (filepath.data.reverse.takeWhile (fun c => c != '.')).reverse)
  else
    String.mk (filepath.data.reverse.take 1)

/-- `detectLanguage`: look the extension up in `LANGUAGE_EXTENSIONS`. -/
def detectLanguage (filepath : String) : Option Language :=
  (LANGUAGE_EXTENSIONS.find? (fun p => p.1 == extOf filepath)).map (fun p => p.2)

/-- `isSupportedFile`: the extension is a key of `LANGUAGE_EXTENSIONS`. -/
def isSupportedFile (filepath : String) : Bool :=
  (LANGUAGE_EXTENSIONS.find? (fun p => p.1 == extOf filepath)).isSome

/-- `isReadmeFile`: last path segment is `readme.md` or `readme`,
case-insensitively. -/
def isReadmeFile (filepath : String) : Bool :=
  let filename := ((filepath.split (fun c => c == '/' || c == '\\')).getLastD "").toLower
  filename == "readme.md" || filename == "readme"

/-- Maximum number of files to process (`MAX_FILES` in `scanner.ts`). -/
def MAX_FILES : Nat := 5000000

/-- Result of processing a single file (`FileResult` in `types.ts`). -/
structure FileResult where
  relativePath : String
  description : Option String := none
  definitions : List Definition := []
  diff : Option FileDiffStats := none
deriving DecidableEq, Repr

/-- What the file system and parser provide for one file: the README
description, the marker-extraction outcome, and the parse tree (`none`
models a thrown `ParseError`, which the scan loop catches and skips). -/
structure FileInfo where
  readmeDescription : Option String := none
  markerFound : Bool := false
  markerDescription : Option String := none
  tree : Option SyntaxNode := none

/-- `processFile` of `scanner.ts`: README files yield their markdown
description; other files need a detected language, a marker, and a
successful parse; diff data, when present, is applied to the
extracted definitions. -/
def processFile (relativePath : String) (info : FileInfo)
    (fileDiff : Option FileDiff) (fileStats : Option FileDiffStats) :
    Option FileResult :=
  if isReadmeFile relativePath then
    match info.readmeDescription with
    | none => none
    | some desc =>
      some { relativePath := relativePath, description := some desc
             definitions := [], diff := fileStats }
  else
    match detectLanguage relativePath with
    | none => none
    | some language =>
      if !info.markerFound then none
      else
        match info.tree with
        | none => none
        | some tree =>
          let definitions := extractDefinitions tree language
          let definitions := match fileDiff with
            | some fd => applyDiffToDefinitions definitions fd
            | none => definitions
          some { relativePath := relativePath
                 description := info.markerDescription
                 definitions := definitions
                 diff := fileStats }

/-- Options for generating the map (`GenerateOptions` in `types.ts`),
with the pattern lists already null-filtered. -/
structure GenerateOptions where
  ignore : List String := []
  filter : List String := []
  diff : Bool := false

/-- The two read-only lookup maps produced by `getAllDiffData`. -/
structure DiffData where
  fileStats : List (String × FileDiffStats)
  fileDiffs : List (String × FileDiff)

/-- The external collaborators of `scanDirectory`: the `git ls-files`
result, the per-file file-system/parser outcomes, the outcome of
`getAllDiffData` (`none` models the call throwing), and the two
picomatch matchers. -/
structure ScanEnv where
  gitFiles : List String
  fileInfo : String → FileInfo
  diffData : Option DiffData
  matchesFilter : String → Bool
  matchesIgnore : String → Bool

/-- Assoc-list lookup modelling `Map.get`. -/
def lookupPath (m : List (String × α)) (p : String) : Option α :=
  (m.find? (fun q => q.1 == p)).map (fun q => q.2)

/-- `relativePath.replace(/\\/g, '/')`. -/
def normalizeSlashes (p : String) : String :=
  p.map (fun c => if c == '\x5c' then '/' else c)

/-- The candidate file list of `scanDirectory` after extension, filter
and ignore filtering. -/
def candidateFiles (opts : GenerateOptions) (env : ScanEnv) : List String :=
  let files := env.gitFiles
  let files := files.filter (fun f => isSupportedFile f || isReadmeFile f)
  let files := if opts.filter.length > 0 then files.filter env.matchesFilter else files
  if opts.ignore.length > 0 then files.filter (fun f => !env.matchesIgnore f) else files

/-- `scanDirectory` of `scanner.ts`: filter the git file list, bail out
above `MAX_FILES`, optionally fetch diff data (falling back to none on
failure), then process each file, skipping failures. -/
def scanDirectory (opts : GenerateOptions) (env : ScanEnv) : List FileResult :=
  let files := candidateFiles opts env
  if files.length > MAX_FILES then []
  else
    let diffMaps : Option DiffData := if opts.diff then env.diffData else none
    files.filterMap (fun relativePath =>
      let normalizedPath := normalizeSlashes relativePath
      let fileDiff := diffMaps.bind (fun dd => lookupPath dd.fileDiffs normalizedPath)
      let fileStats := diffMaps.bind (fun dd => lookupPath dd.fileStats normalizedPath)
      processFile relativePath (env.fileInfo relativePath) fileDiff fileStats)

/-- A file entry in the map (`FileEntry` in `types.ts`), with `defs` as
an ordered name-to-description list. -/
structure FileEntry where
  description : Option String := none
  diff : Option String := none
  defs : List (String × String) := []
deriving DecidableEq, Repr

/-- Recursive map node (`MapNode` in `types.ts`): either a directory of
named children or a file entry. -/
inductive MapNode where
  | dirNode : List (String × MapNode) → MapNode
  | fileNode : FileEntry → MapNode

/-- Source string of a `DefinitionType` tag. -/
def typeString : DefinitionType → String
  | .function => "function"
  | .class_ => "class"
  | .struct => "struct"
  | .trait => "trait"
  | .interface => "interface"
  | .typeAlias => "type"
  | .enum => "enum"
  | .const => "const"
  | .union => "union"

/-- Source string of a `DefinitionStatus` tag. -/
def statusString : DefinitionStatus → String
  | .added => "added"
  | .updated => "updated"

/-- `formatFileDiff` of `map/builder.ts`: `"+N-M"`, `"+N"`, `"-M"` or `""`. -/
def formatFileDiff (d : FileDiffStats) : String :=
  String.join ((if d.added > 0 then ["+" ++ toString d.added] else []) ++
               (if d.deleted > 0 then ["-" ++ toString d.deleted] else []))

/-- `formatDefinition` of `map/builder.ts`. -/
def formatDefinition (d : Definition) : String :=
  let parts := ["line " ++ toString d.line, typeString d.kind]
  let parts := parts ++ (if d.exported then ["exported"] else [])
  let parts := parts ++
    (match d.diff with
     | none => []
     | some dd =>
       let diffParts := (if dd.added > 0 then ["+" ++ toString dd.added] else []) ++
                        (if dd.deleted > 0 then ["-" ++ toString dd.deleted] else [])
       if diffParts.length > 0 then
         [statusString dd.status ++ " (" ++ String.join diffParts ++ ")"]
       else [statusString dd.status])
  String.intercalate ", " parts

/-- Set a key in a directory's entry list, replacing in place or
appending (JS object property assignment). -/
def setEntry : List (String × MapNode) → String → MapNode → List (String × MapNode)
  | [], k, v => [(k, v)]
  | (k1, v1) :: rest, k, v =>
    if k1 == k then (k, v) :: rest else (k1, v1) :: setEntry rest k v

/-- The file entry built by `insertFile` for one `FileResult`. -/
def fileEntryOf (result : FileResult) : FileEntry :=
  { description := result.description
    diff := result.diff.map formatFileDiff
    defs := if result.definitions.length > 0 then
        result.definitions.map (fun d => (d.name, formatDefinition d))
      else [] }

/-- `insertFile` of `map/builder.ts`: navigate/create the directory
chain named by the path parts and set the file entry at the leaf. -/
def insertParts : List (String × MapNode) → List String → FileEntry →
    List (String × MapNode)
  | entries, [], _ => entries
  | entries, [filename], fe => setEntry entries filename (.fileNode fe)
  | entries, dir :: rest, fe =>
    let sub := match (entries.find? (fun p => p.1 == dir)).map (fun p => p.2) with
      | some (.dirNode es) => es
      | _ => []
    setEntry entries dir (.dirNode (insertParts sub rest fe))

/-- `buildMap` of `map/builder.ts`: insert every result, then wrap the
tree in the root name. -/
def buildMap (results : List FileResult) (rootName : String) : MapNode :=
  .dirNode [(rootName, .dirNode (results.foldl (fun root r =>
    insertParts root (r.relativePath.splitOn "/") (fileEntryOf r)) []))]

/-- `getRootName` of `map/builder.ts`: basename after stripping trailing
slashes, with `.` and the empty string mapped to `root`. -/
def getRootName (dir : String) : String :=
  let cleaned := String.mk ((dir.data.reverse.dropWhile (fun c => c == '/')).reverse)
  let name := (cleaned.splitOn "/").getLastD ""
  if name == "." || name == "" then "root" else name

/-- The external collaborators of `generateMap`/`generateMapYaml` in
`index.ts`: the `git rev-parse` probe, the home-directory comparison,
the resolved directory, and what `scanDirectory` would return. -/
structure LibEnv where
  isGitRepo : Bool
  isHome : Bool
  dir : String
  scanResults : List FileResult

/-- `generateMap` of `index.ts`: empty root map when not in a git repo
or when the directory is the user's home. -/
def generateMap (env : LibEnv) : MapNode :=
  let rootName := getRootName env.dir
  if !env.isGitRepo || env.isHome then .dirNode [(rootName, .dirNode [])]
  else buildMap env.scanResults rootName

/-- `generateMapYaml` of `index.ts`: empty string when not in a git repo,
when the directory is the user's home, or when the scan is empty;
`toYaml` (js-yaml) is passed in as an external collaborator. -/
def generateMapYaml (env : LibEnv) (toYaml : MapNode → String) : String :=
  if !env.isGitRepo || env.isHome then ""
  else if env.scanResults.length == 0 then ""
  else toYaml (buildMap env.scanResults (getRootName env.dir))

mutual

/-- Well-formedness contract of the external syntax-tree provider:
every node has ordered start/end rows and non-empty source text,
hereditarily through children and field entries. -/
def wfNode : SyntaxNode → Bool
  | .mk _ text s e children fields =>
    decide (s ≤ e) && !text.isEmpty && wfChildren children && wfFieldList fields

/-- `wfNode` on every node of a child list. -/
def wfChildren : List SyntaxNode → Bool
  | [] => true
  | c :: cs => wfNode c && wfChildren cs

/-- `wfNode` on every node of a field list. -/
def wfFieldList : List (String × SyntaxNode) → Bool
  | [] => true
  | (_, v) :: fs => wfNode v && wfFieldList fs

end

/-- First-occurrence-wins deduplication by `name`, carrying the set of
seen names, as performed by `extractDefinitions`' main loop. -/
def scanDefs : List String → List Definition → List Definition × List String
  | seen, [] => ([], seen)
  | seen, d :: ds =>
    if seen.contains d.name then scanDefs seen ds
    else
      (d :: (scanDefs (seen ++ [d.name]) ds).1, (scanDefs (seen ++ [d.name]) ds).2)

theorem wfChildren_iff (l : List SyntaxNode) :
    wfChildren l = true ↔ ∀ c ∈ l, wfNode c = true := by
  induction l with
  | nil => simp [wfChildren]
  | cons c cs ih => simp [wfChildren, ih]

theorem wfFieldList_iff (l : List (String × SyntaxNode)) :
    wfFieldList l = true ↔ ∀ p ∈ l, wfNode p.2 = true := by
  induction l with
  | nil => simp [wfFieldList]
  | cons p fs ih =>
    obtain ⟨k, v⟩ := p
    simp [wfFieldList, ih]

theorem wf_parts {k t : String} {s e : Nat} {cs : List SyntaxNode}
    {fs : List (String × SyntaxNode)} (h : wfNode (.mk k t s e cs fs) = true) :
    s ≤ e ∧ t.isEmpty = false ∧ wfChildren cs = true ∧ wfFieldList fs = true := by
  simp only [wfNode, Bool.and_eq_true, decide_eq_true_eq, Bool.not_eq_true'] at h
  exact ⟨h.1.1.1, h.1.1.2, h.1.2, h.2⟩

theorem wf_rows {n : SyntaxNode} (h : wfNode n = true) : n.startRow ≤ n.endRow := by
  obtain ⟨k, t, s, e, cs, fs⟩ := n
  exact (wf_parts h).1

theorem wf_text {n : SyntaxNode} (h : wfNode n = true) : n.text.isEmpty = false := by
  obtain ⟨k, t, s, e, cs, fs⟩ := n
  exact (wf_parts h).2.1

theorem wf_child {n c : SyntaxNode} (h : wfNode n = true) (hc : c ∈ n.children) :
    wfNode c = true := by
  obtain ⟨k, t, s, e, cs, fs⟩ := n
  exact (wfChildren_iff cs).mp (wf_parts h).2.2.1 c hc

theorem wf_field {n v : SyntaxNode} {f : String} (h : wfNode n = true)
    (hv : n.childForFieldName f = some v) : wfNode v = true := by
  obtain ⟨k, t, s, e, cs, fs⟩ := n
  rw [SyntaxNode.childForFieldName, Option.map_eq_some'] at hv
  obtain ⟨p, hp, hpv⟩ := hv
  have := (wfFieldList_iff fs).mp (wf_parts h).2.2.2 p (List.mem_of_find?_eq_some hp)
  rwa [hpv] at this

theorem wf_unwrapExport {n : SyntaxNode} (h : wfNode n = true) :
    wfNode (unwrapExport n) = true := by
  unfold unwrapExport
  split
  · split
    next c hc => exact wf_child h (List.mem_of_find?_eq_some hc)
    next => exact h
  · exact h

theorem addDefs_nil (st : List Definition × List String) : addDefs st [] = st := rfl

theorem addDefs_append (st : List Definition × List String)
    (xs ys : List Definition) :
    addDefs st (xs ++ ys) = addDefs (addDefs st xs) ys :=
  List.foldl_append ..

theorem addDefs_eq_scanDefs (defs : List Definition) :
    ∀ (acc : List Definition) (seen : List String),
    addDefs (acc, seen) defs = (acc ++ (scanDefs seen defs).1, (scanDefs seen defs).2) := by
  induction defs with
  | nil => simp [addDefs, scanDefs]
  | cons d ds ih =>
    intro acc seen
    by_cases hmem : d.name ∈ seen
    · have h1 : addDefs (acc, seen) (d :: ds) = addDefs (acc, seen) ds := by
        simp [addDefs, List.foldl, hmem]
      rw [h1, ih]
      simp [scanDefs, hmem]
    · have h1 : addDefs (acc, seen) (d :: ds) = addDefs (acc ++ [d], seen ++ [d.name]) ds := by
        simp [addDefs, List.foldl, hmem]
      rw [h1, ih]
      simp [scanDefs, hmem, List.append_assoc]

theorem foldl_concat {α β : Type} (g : α → List β) (l : List α) :
    ∀ (a : List β), l.foldl (fun acc x => acc ++ g x) a = a ++ (l.map g).flatten := by
  induction l with
  | nil => simp
  | cons x xs ih => intro a; simp [List.foldl, ih]

theorem foldl_concat_if {α β : Type} (g : α → List β) (skip : α → Bool) (l : List α) :
    ∀ (a : List β),
    l.foldl (fun acc x => if skip x then acc else acc ++ g x) a =
      a ++ (l.map (fun x => if skip x then [] else g x)).flatten := by
  induction l with
  | nil => simp
  | cons x xs ih =>
    intro a
    by_cases hs : skip x <;> simp [List.foldl, hs, ih]

theorem foldl_addDefs {α : Type} (g : α → List Definition) (l : List α) :
    ∀ (st : List Definition × List String),
    l.foldl (fun st x => addDefs st (g x)) st = addDefs st ((l.map g).flatten) := by
  induction l with
  | nil => simp [addDefs]
  | cons x xs ih =>
    intro st
    simp [List.foldl, ih, List.map_cons, List.flatten, addDefs_append]

theorem foldl_addDefs_if {α : Type} (g : α → List Definition) (skip : α → Bool) (l : List α) :
    ∀ (st : List Definition × List String),
    l.foldl (fun st x => if skip x then st else addDefs st (g x)) st =
      addDefs st ((l.map (fun x => if skip x then [] else g x)).flatten) := by
  induction l with
  | nil => simp [addDefs]
  | cons x xs ih =>
    intro st
    by_cases hs : skip x <;>
      simp [List.foldl, hs, ih, List.map_cons, List.flatten, addDefs_append, addDefs_nil]

theorem extractDefinitions_fold (language : Language) (l : List SyntaxNode) :
    ∀ (st : List Definition × List String),
    l.foldl (fun st node =>
      if language == .cpp && node.kind == "linkage_specification" then
        node.children.foldl (fun st inner =>
          if inner.kind == "extern" || inner.kind == "string_literal" then st
          else addDefs st (extractDefinition inner .cpp true)) st
      else addDefs st (extractDefinition node language false)) st
    = addDefs st ((l.map (nodeDefs language)).flatten) := by
  induction l with
  | nil => intro st; simp [addDefs]
  | cons n ns ih =>
    intro st
    by_cases hl : (language == .cpp && n.kind == "linkage_specification") = true
    · simp only [List.foldl, hl, if_true]
      rw [foldl_addDefs_if, ih]
      rw [List.map_cons, List.flatten_cons, addDefs_append]
      have hn : nodeDefs language n =
          (n.children.map (fun inner =>
            if inner.kind == "extern" || inner.kind == "string_literal" then []
            else extractDefinition inner .cpp true)).flatten := by
        rw [nodeDefs, if_pos hl, foldl_concat_if]
        simp
      rw [hn]
    · simp only [List.foldl]
      rw [if_neg hl, ih, List.map_cons, List.flatten_cons, addDefs_append,
        nodeDefs, if_neg hl]

theorem allDefs_eq_flatten (root : SyntaxNode) (language : Language) :
    allDefs root language = (root.children.map (nodeDefs language)).flatten := by
  rw [allDefs, foldl_concat]
  simp

theorem extractDefinitions_eq_scanDefs (root : SyntaxNode) (language : Language) :
    extractDefinitions root language = (scanDefs [] (allDefs root language)).1 := by
  rw [extractDefinitions, extractDefinitions_fold, ← allDefs_eq_flatten]
  rw [show (([], []) : List Definition × List String) = (([] : List Definition), ([] : List String)) from rfl]
  rw [addDefs_eq_scanDefs]
  simp

theorem scanDefs_notMem_seen (l : List Definition) :
    ∀ (seen : List String) (d : Definition), d ∈ (scanDefs seen l).1 → d.name ∉ seen := by
  induction l with
  | nil => intro seen d hd; simp [scanDefs] at hd
  | cons d1 ds ih =>
    intro seen d hd
    by_cases hmem : d1.name ∈ seen
    · rw [scanDefs, if_pos (by simpa using hmem)] at hd
      exact ih seen d hd
    · rw [scanDefs, if_neg (by simpa using hmem)] at hd
      rcases List.mem_cons.mp hd with h1 | h1
      · subst h1; exact hmem
      · intro hin
        exact ih (seen ++ [d1.name]) d h1 (List.mem_append_left _ hin)

theorem scanDefs_find? (l : List Definition) :
    ∀ (seen : List String) (d : Definition), d ∈ (scanDefs seen l).1 →
      l.find? (fun e => e.name == d.name) = some d := by
  induction l with
  | nil => intro seen d hd; simp [scanDefs] at hd
  | cons d1 ds ih =>
    intro seen d hd
    by_cases hmem : d1.name ∈ seen
    · rw [scanDefs, if_pos (by simpa using hmem)] at hd
      have hne : (d1.name == d.name) = false := by
        have := scanDefs_notMem_seen ds seen d hd
        simp only [beq_eq_false_iff_ne, ne_eq]
        intro h1; rw [h1] at hmem; exact this hmem
      rw [List.find?, hne]
      exact ih seen d hd
    · rw [scanDefs, if_neg (by simpa using hmem)] at hd
      rcases List.mem_cons.mp hd with h1 | h1
      · subst h1
        rw [List.find?]
        simp
      · have hnot := scanDefs_notMem_seen ds (seen ++ [d1.name]) d h1
        have hne : (d1.name == d.name) = false := by
          simp only [beq_eq_false_iff_ne, ne_eq]
          intro h2
          exact hnot (List.mem_append_right _ (by simp [h2]))
        rw [List.find?, hne]
        exact ih (seen ++ [d1.name]) d h1

theorem scanDefs_complete (l : List Definition) :
    ∀ (seen : List String) (d : Definition), d ∈ l →
      d.name ∈ seen ∨ ∃ d2 ∈ (scanDefs seen l).1, d2.name = d.name := by
  induction l with
  | nil => intro seen d hd; simp at hd
  | cons d1 ds ih =>
    intro seen d hd
    by_cases hmem : d1.name ∈ seen
    · rw [scanDefs, if_pos (by simpa using hmem)]
      rcases List.mem_cons.mp hd with h1 | h1
      · subst h1; exact Or.inl hmem
      · exact ih seen d h1
    · rw [scanDefs, if_neg (by simpa using hmem)]
      rcases List.mem_cons.mp hd with h1 | h1
      · subst h1
        exact Or.inr ⟨d, List.mem_cons_self .., rfl⟩
      · rcases ih (seen ++ [d1.name]) d h1 with h2 | h2
        · rcases List.mem_append.mp h2 with h3 | h3
          · exact Or.inl h3
          · refine Or.inr ⟨d1, List.mem_cons_self .., ?_⟩
            exact (List.mem_singleton.mp h3).symm
        · obtain ⟨d2, hd2, hname⟩ := h2
          exact Or.inr ⟨d2, List.mem_cons_of_mem _ hd2, hname⟩

theorem scanDefs_nodup (l : List Definition) :
    ∀ (seen : List String), (((scanDefs seen l).1.map Definition.name)).Nodup := by
  induction l with
  | nil => intro seen; simp [scanDefs]
  | cons d1 ds ih =>
    intro seen
    by_cases hmem : d1.name ∈ seen
    · rw [scanDefs, if_pos (by simpa using hmem)]
      exact ih seen
    · rw [scanDefs, if_neg (by simpa using hmem)]
      rw [List.map_cons, List.nodup_cons]
      refine ⟨?_, ih (seen ++ [d1.name])⟩
      intro hin
      obtain ⟨d2, hd2, hname⟩ := List.mem_map.mp hin
      have := scanDefs_notMem_seen ds (seen ++ [d1.name]) d2 hd2
      exact this (List.mem_append_right _ (by simp [hname]))

/-- C1: the `Definition` list returned by `extractDefinitions` contains
no two entries with the same name, every returned entry is the first
entry with its name in the pre-deduplication sequence `allDefs` (which
lists definitions in top-level child order), and every name produced by
some top-level node survives via its first-encountered entry. -/
theorem extractDefinitions_dedup_first (root : SyntaxNode) (language : Language) :
    ((extractDefinitions root language).map Definition.name).Nodup ∧
    (∀ d ∈ extractDefinitions root language,
      (allDefs root language).find? (fun e => e.name == d.name) = some d) ∧
    (∀ d ∈ allDefs root language,
      ∃ d2 ∈ extractDefinitions root language, d2.name = d.name) := by
  rw [extractDefinitions_eq_scanDefs]
  refine ⟨scanDefs_nodup _ _, ?_, ?_⟩
  · intro d hd
    exact scanDefs_find? _ _ d hd
  · intro d hd
    rcases scanDefs_complete (allDefs root language) [] d hd with h | h
    · simp at h
    · exact h

/-- The semantic categories a top-level node is classified into, in the
order the branches of `extractDefinition` try them. -/
inductive Category where
  | function
  | aggregateClass
  | aggregateStruct
  | trait
  | interface
  | typeAlias
  | enum
  | const
deriving DecidableEq, Repr

/-- The fixed precedence order of `extractDefinition`'s branches. -/
def CATEGORY_ORDER : List Category :=
  [.function, .aggregateClass, .aggregateStruct, .trait, .interface,
   .typeAlias, .enum, .const]

/-- The per-language kind table consulted for each category. -/
def categoryTypes (language : Language) : Category → List String
  | .function => FUNCTION_TYPES language
  | .aggregateClass => CLASS_TYPES language
  | .aggregateStruct => STRUCT_TYPES language
  | .trait => TRAIT_TYPES language
  | .interface => INTERFACE_TYPES language
  | .typeAlias => TYPE_TYPES language
  | .enum => ENUM_TYPES language
  | .const => CONST_TYPES language

/-- Classification of a node kind: the first category in precedence
order whose kind table contains it. -/
def classify (language : Language) (kind : String) : Option Category :=
  CATEGORY_ORDER.find? (fun c => (categoryTypes language c).contains kind)

/-- The categories strictly before a category in precedence order. -/
def earlierCategories : Category → List Category
  | .function => []
  | .aggregateClass => [.function]
  | .aggregateStruct => [.function, .aggregateClass]
  | .trait => [.function, .aggregateClass, .aggregateStruct]
  | .interface => [.function, .aggregateClass, .aggregateStruct, .trait]
  | .typeAlias => [.function, .aggregateClass, .aggregateStruct, .trait, .interface]
  | .enum => [.function, .aggregateClass, .aggregateStruct, .trait, .interface, .typeAlias]
  | .const => [.function, .aggregateClass, .aggregateStruct, .trait, .interface, .typeAlias, .enum]

/-- The categories strictly after a category in precedence order. -/
def laterCategories : Category → List Category
  | .function => [.aggregateClass, .aggregateStruct, .trait, .interface, .typeAlias, .enum, .const]
  | .aggregateClass => [.aggregateStruct, .trait, .interface, .typeAlias, .enum, .const]
  | .aggregateStruct => [.trait, .interface, .typeAlias, .enum, .const]
  | .trait => [.interface, .typeAlias, .enum, .const]
  | .interface => [.typeAlias, .enum, .const]
  | .typeAlias => [.enum, .const]
  | .enum => [.const]
  | .const => []

/-- The branch of `extractDefinition` that handles each category. -/
def categoryBranch (language : Language) (node : SyntaxNode) (forcedExtern : Bool) :
    Category → List Definition
  | .function => sizedBranch language (exportedOf language node)
      (externOf language node forcedExtern) (actualNodeOf language node) .function
  | .aggregateClass => sizedBranch language (exportedOf language node)
      (externOf language node forcedExtern) (actualNodeOf language node) .class_
  | .aggregateStruct => sizedBranch language (exportedOf language node)
      (externOf language node forcedExtern) (actualNodeOf language node) .struct
  | .trait => sizedBranch language (exportedOf language node)
      (externOf language node forcedExtern) (actualNodeOf language node) .trait
  | .interface => unsizedBranch language (exportedOf language node)
      (externOf language node forcedExtern) (actualNodeOf language node) .interface
  | .typeAlias => unsizedBranch language (exportedOf language node)
      (externOf language node forcedExtern) (actualNodeOf language node) .typeAlias
  | .enum => unsizedBranch language (exportedOf language node)
      (externOf language node forcedExtern) (actualNodeOf language node) .enum
  | .const => constBranch language (exportedOf language node)
      (externOf language node forcedExtern) (actualNodeOf language node)

theorem category_order_split (c : Category) :
    CATEGORY_ORDER = earlierCategories c ++ c :: laterCategories c := by
  cases c <;> rfl

theorem not_mem_earlier (c : Category) : c ∉ earlierCategories c := by
  cases c <;> decide

theorem not_mem_later (c : Category) : c ∉ laterCategories c := by
  cases c <;> decide

theorem classify_eq_some_iff (language : Language) (k : String) (c : Category) :
    classify language k = some c ↔
      (k ∈ categoryTypes language c ∧
       ∀ c2 ∈ earlierCategories c, k ∉ categoryTypes language c2) := by
  rw [classify, category_order_split c, List.find?_append]
  constructor
  · intro h
    rcases ho : (earlierCategories c).find? (fun c => (categoryTypes language c).contains k)
      with _ | x
    · rw [ho, Option.none_or] at h
      refine ⟨?_, ?_⟩
      · by_cases hp : k ∈ categoryTypes language c
        · exact hp
        · rw [List.find?_cons_of_neg _ (by simpa using hp)] at h
          exact absurd (List.mem_of_find?_eq_some h) (not_mem_later c)
      · intro c2 hc2
        have := List.find?_eq_none.mp ho c2 hc2
        simpa using this
    · rw [ho, Option.or_some] at h
      have hx : x = c := by simpa using h
      exact absurd (List.mem_of_find?_eq_some (hx ▸ ho)) (not_mem_earlier c)
  · rintro ⟨h1, h2⟩
    have hnone : (earlierCategories c).find?
        (fun c => (categoryTypes language c).contains k) = none :=
      List.find?_eq_none.mpr (fun c2 hc2 => by simpa using h2 c2 hc2)
    rw [hnone, Option.none_or, List.find?_cons_of_pos _ (by simpa using h1)]

theorem extractDefinition_eq_classify (node : SyntaxNode) (language : Language)
    (forcedExtern : Bool) :
    extractDefinition node language forcedExtern =
      match classify language (actualNodeOf language node).kind with
      | none => []
      | some c => categoryBranch language node forcedExtern c := by
  rw [extractDefinition, classify, CATEGORY_ORDER]
  by_cases h1 : (actualNodeOf language node).kind ∈ FUNCTION_TYPES language
  · rw [List.find?_cons_of_pos _ (by simpa [categoryTypes] using h1)]
    simp [h1, categoryBranch]
  · rw [List.find?_cons_of_neg _ (by simpa [categoryTypes] using h1)]
    by_cases h2 : (actualNodeOf language node).kind ∈ CLASS_TYPES language
    · rw [List.find?_cons_of_pos _ (by simpa [categoryTypes] using h2)]
      simp [h1, h2, categoryBranch]
    · rw [List.find?_cons_of_neg _ (by simpa [categoryTypes] using h2)]
      by_cases h3 : (actualNodeOf language node).kind ∈ STRUCT_TYPES language
      · rw [List.find?_cons_of_pos _ (by simpa [categoryTypes] using h3)]
        simp [h1, h2, h3, categoryBranch]
      · rw [List.find?_cons_of_neg _ (by simpa [categoryTypes] using h3)]
        by_cases h4 : (actualNodeOf language node).kind ∈ TRAIT_TYPES language
        · rw [List.find?_cons_of_pos _ (by simpa [categoryTypes] using h4)]
          simp [h1, h2, h3, h4, categoryBranch]
        · rw [List.find?_cons_of_neg _ (by simpa [categoryTypes] using h4)]
          by_cases h5 : (actualNodeOf language node).kind ∈ INTERFACE_TYPES language
          · rw [List.find?_cons_of_pos _ (by simpa [categoryTypes] using h5)]
            simp [h1, h2, h3, h4, h5, categoryBranch]
          · rw [List.find?_cons_of_neg _ (by simpa [categoryTypes] using h5)]
            by_cases h6 : (actualNodeOf language node).kind ∈ TYPE_TYPES language
            · rw [List.find?_cons_of_pos _ (by simpa [categoryTypes] using h6)]
              simp [h1, h2, h3, h4, h5, h6, categoryBranch]
            · rw [List.find?_cons_of_neg _ (by simpa [categoryTypes] using h6)]
              by_cases h7 : (actualNodeOf language node).kind ∈ ENUM_TYPES language
              · rw [List.find?_cons_of_pos _ (by simpa [categoryTypes] using h7)]
                simp [h1, h2, h3, h4, h5, h6, h7, categoryBranch]
              · rw [List.find?_cons_of_neg _ (by simpa [categoryTypes] using h7)]
                by_cases h8 : (actualNodeOf language node).kind ∈ CONST_TYPES language
                · rw [List.find?_cons_of_pos _ (by simpa [categoryTypes] using h8)]
                  simp [h1, h2, h3, h4, h5, h6, h7, h8, categoryBranch]
                · rw [List.find?_cons_of_neg _ (by simpa [categoryTypes] using h8)]
                  simp [h1, h2, h3, h4, h5, h6, h7, h8, List.find?]

/-- C3: classification of a top-level node's (unwrapped) kind tries the
categories in the fixed precedence order function > class > struct >
trait > interface > type-alias > enum > constant: `classify` yields a
category exactly when that category's table matches and no
earlier-precedence table does (so at most one category is ever
assigned), and `extractDefinition` is exactly the dispatch on this
classification. -/
theorem classification_precedence (node : SyntaxNode) (language : Language)
    (forcedExtern : Bool) :
    (∀ c : Category, classify language (actualNodeOf language node).kind = some c ↔
      ((actualNodeOf language node).kind ∈ categoryTypes language c ∧
       ∀ c2 ∈ earlierCategories c,
         (actualNodeOf language node).kind ∉ categoryTypes language c2)) ∧
    extractDefinition node language forcedExtern =
      (match classify language (actualNodeOf language node).kind with
       | none => []
       | some c => categoryBranch language node forcedExtern c) :=
  ⟨fun c => classify_eq_some_iff language (actualNodeOf language node).kind c,
   extractDefinition_eq_classify node language forcedExtern⟩

theorem sizedBranch_ne_nil (language : Language) (exported externLk : Bool)
    (a : SyntaxNode) (k : DefinitionType) :
    sizedBranch language exported externLk a k ≠ [] ↔
      ((∃ nm, truthyName (extractName a language) = some nm) ∧
       getBodyLineCount a > MIN_BODY_LINES) := by
  rw [sizedBranch]
  cases h : truthyName (extractName a language) with
  | none => simp [h]
  | some nm =>
    by_cases hc : getBodyLineCount a > MIN_BODY_LINES <;> simp [h, hc]

theorem unsizedBranch_ne_nil (language : Language) (exported externLk : Bool)
    (a : SyntaxNode) (k : DefinitionType) :
    unsizedBranch language exported externLk a k ≠ [] ↔
      (∃ nm, truthyName (extractName a language) = some nm) := by
  rw [unsizedBranch]
  cases h : truthyName (extractName a language) with
  | none => simp [h]
  | some nm => simp [h]

theorem extractDefinition_sized (node : SyntaxNode) (language : Language)
    (forcedExtern : Bool)
    (hs : (actualNodeOf language node).kind ∈ FUNCTION_TYPES language ∨
          (actualNodeOf language node).kind ∈ CLASS_TYPES language ∨
          (actualNodeOf language node).kind ∈ STRUCT_TYPES language ∨
          (actualNodeOf language node).kind ∈ TRAIT_TYPES language) :
    ∃ k, extractDefinition node language forcedExtern =
      sizedBranch language (exportedOf language node)
        (externOf language node forcedExtern) (actualNodeOf language node) k := by
  rw [extractDefinition]
  by_cases h1 : (actualNodeOf language node).kind ∈ FUNCTION_TYPES language
  · exact ⟨.function, by simp [h1]⟩
  · by_cases h2 : (actualNodeOf language node).kind ∈ CLASS_TYPES language
    · exact ⟨.class_, by simp [h1, h2]⟩
    · by_cases h3 : (actualNodeOf language node).kind ∈ STRUCT_TYPES language
      · exact ⟨.struct, by simp [h1, h2, h3]⟩
      · by_cases h4 : (actualNodeOf language node).kind ∈ TRAIT_TYPES language
        · exact ⟨.trait, by simp [h1, h2, h3, h4]⟩
        · exfalso
          rcases hs with h | h | h | h <;> contradiction

/-- C2: a node whose (unwrapped) kind matches a function/class/struct/
trait table only ever emits a definition when its body line count
`endLine - startLine + 1` strictly exceeds `MIN_BODY_LINES = 5` — a
6-line body with a resolvable name is emitted and a 5-line body never
is — while nodes classified as interface, type-alias or enum, and
constants (the plain constant branch, the Zig pub-const branch, and
TS/JS non-arrow declarators), are emitted with no size condition. -/
theorem size_filter_boundary (node : SyntaxNode) (language : Language)
    (forcedExtern : Bool) :
    (((actualNodeOf language node).kind ∈ FUNCTION_TYPES language ∨
      (actualNodeOf language node).kind ∈ CLASS_TYPES language ∨
      (actualNodeOf language node).kind ∈ STRUCT_TYPES language ∨
      (actualNodeOf language node).kind ∈ TRAIT_TYPES language) →
      ((extractDefinition node language forcedExtern ≠ [] →
          getBodyLineCount (actualNodeOf language node) > MIN_BODY_LINES) ∧
       (getBodyLineCount (actualNodeOf language node) = MIN_BODY_LINES →
          extractDefinition node language forcedExtern = []) ∧
       ((∃ nm, truthyName (extractName (actualNodeOf language node) language) = some nm) →
          getBodyLineCount (actualNodeOf language node) = MIN_BODY_LINES + 1 →
          extractDefinition node language forcedExtern ≠ []))) ∧
    ((classify language (actualNodeOf language node).kind = some .interface ∨
      classify language (actualNodeOf language node).kind = some .typeAlias ∨
      classify language (actualNodeOf language node).kind = some .enum) →
      (∃ nm, truthyName (extractName (actualNodeOf language node) language) = some nm) →
      extractDefinition node language forcedExtern ≠ []) ∧
    ((language = .rust ∨ language = .go ∨ language = .cpp ∨ language = .python) →
      classify language (actualNodeOf language node).kind = some .const →
      (∃ nm, truthyName (extractConstName (actualNodeOf language node) language) = some nm) →
      extractDefinition node language forcedExtern ≠ []) ∧
    (language = .zig → (actualNodeOf language node).kind = "variable_declaration" →
      exportedOf language node = true →
      isZigConst (actualNodeOf language node) = true →
      (∃ nm, truthyName (extractZigName (actualNodeOf language node)) = some nm) →
      extractDefinition node language forcedExtern ≠ []) ∧
    ((language = .typescript ∨ language = .javascript) →
      (actualNodeOf language node).kind = "lexical_declaration" →
      ∀ (exported externLk : Bool) (child nn : SyntaxNode),
        child ∈ (actualNodeOf language node).children →
        child.kind = "variable_declarator" →
        child.childForFieldName "name" = some nn →
        (child.childForFieldName "value" = none ∨
          ∃ vv, child.childForFieldName "value" = some vv ∧ vv.kind ≠ "arrow_function") →
        ({ name := nn.text, line := child.startRow + 1, endLine := child.endRow + 1,
           kind := .const, exported := exported, externLinkage := externLk } : Definition)
          ∈ extractJSDeclarations (actualNodeOf language node) language
              exported externLk) := by
  refine ⟨?_, ?_, ?_, ?_, ?_⟩
  · intro hs
    obtain ⟨k, hk⟩ := extractDefinition_sized node language forcedExtern hs
    rw [hk]
    refine ⟨?_, ?_, ?_⟩
    · intro hne
      exact ((sizedBranch_ne_nil ..).mp hne).2
    · intro hcount
      by_contra hne
      have := ((sizedBranch_ne_nil ..).mp hne).2
      omega
    · intro hnm hcount
      exact (sizedBranch_ne_nil ..).mpr ⟨hnm, by omega⟩
  · intro hcl hnm
    rw [extractDefinition_eq_classify]
    rcases hcl with h | h | h <;>
      rw [h] <;>
      exact (unsizedBranch_ne_nil ..).mpr hnm
  · intro hlang hcl hnm
    rw [extractDefinition_eq_classify, hcl]
    obtain ⟨nm, hnm⟩ := hnm
    rcases hlang with h | h | h | h <;> subst h <;>
      simp [categoryBranch, constBranch, hnm]
  · intro hz hknd hexp hc hnm
    subst hz
    rw [extractDefinition_eq_classify]
    have hcl : classify .zig (actualNodeOf .zig node).kind = some .const := by
      rw [hknd]; decide
    rw [hcl]
    obtain ⟨nm, hnm⟩ := hnm
    simp [categoryBranch, constBranch, hexp, hc, hnm]
  · intro hl hlex exported externLk child nn hmem hck hnn hv
    rw [extractJSDeclarations, if_neg (by simp [hlex])]
    refine List.mem_filterMap.mpr ⟨child, hmem, ?_⟩
    have hne2 : (child.kind != "variable_declarator") = false := by simp [hck]
    rcases hv with hv | ⟨vv, hvv, hvk⟩
    · simp [hne2, hnn, hv]
    · have hva : (vv.kind == "arrow_function") = false := by simp [hvk]
      simp [hne2, hnn, hvv, hva]

theorem extractDefinition_zig_var (node : SyntaxNode) (forcedExtern : Bool)
    (hknd : node.kind = "variable_declaration") :
    extractDefinition node .zig forcedExtern =
      constBranch .zig (isZigPub node) (externOf .zig node forcedExtern) node := by
  rw [extractDefinition]
  simp [actualNodeOf, exportedOf, hknd, FUNCTION_TYPES, CLASS_TYPES, STRUCT_TYPES,
    TRAIT_TYPES, INTERFACE_TYPES, TYPE_TYPES, ENUM_TYPES, CONST_TYPES]

/-- C10: a Zig top-level `variable_declaration` yields a definition only
when it is both `pub` and `const`; non-pub or `var` declarations yield
nothing, and an emitted definition's kind is struct/union/enum when the
value is such a declaration and `const` otherwise. -/
theorem zig_const_gating (node : SyntaxNode) (forcedExtern : Bool)
    (hknd : node.kind = "variable_declaration") :
    (¬ (isZigPub node = true ∧ isZigConst node = true) →
      extractDefinition node .zig forcedExtern = []) ∧
    (∀ nm, isZigPub node = true → isZigConst node = true →
      truthyName (extractZigName node) = some nm →
      extractDefinition node .zig forcedExtern =
        [createDef .zig true (externOf .zig node forcedExtern) nm
          ((getZigTypeDeclaration node).getD .const)
          (node.startRow + 1) (node.endRow + 1)]) ∧
    (isZigPub node = true → isZigConst node = true →
      truthyName (extractZigName node) = none →
      extractDefinition node .zig forcedExtern = []) := by
  rw [extractDefinition_zig_var node forcedExtern hknd]
  refine ⟨?_, ?_, ?_⟩
  · intro hng
    rcases hp : isZigPub node with _ | _
    · simp [constBranch, hp]
    · rcases hcn : isZigConst node with _ | _
      · simp [constBranch, hp, hcn]
      · exact absurd ⟨hp, hcn⟩ hng
  · intro nm hp hcn hnm
    simp [constBranch, hp, hcn, hnm]
  · intro hp hcn hnm
    simp [constBranch, hp, hcn, hnm]

theorem extractArrowFunction_go_spec (node : SyntaxNode) :
    ∀ (l : List SyntaxNode) (a : ArrowFnInfo),
    extractArrowFunction.arrowGo node l = some a →
    ∃ declarator ∈ l, declarator.kind = "variable_declarator" ∧
      ∃ nn vv, declarator.childForFieldName "name" = some nn ∧
        declarator.childForFieldName "value" = some vv ∧
        vv.kind = "arrow_function" ∧
        a = { name := nn.text, line := node.startRow + 1,
              endLine := node.endRow + 1, bodyLines := getBodyLineCount vv } := by
  intro l
  induction l with
  | nil => intro a h; simp [extractArrowFunction.arrowGo] at h
  | cons d rest ih =>
    intro a h
    simp only [extractArrowFunction.arrowGo] at h
    by_cases hd : (d.kind != "variable_declarator") = true
    · rw [if_pos hd] at h
      obtain ⟨dec, hmem, hrest⟩ := ih a h
      exact ⟨dec, List.mem_cons_of_mem _ hmem, hrest⟩
    · rw [if_neg hd] at h
      have hdk : d.kind = "variable_declarator" := by simpa using hd
      rcases hn : d.childForFieldName "name" with _ | nn <;>
        rcases hv : d.childForFieldName "value" with _ | vv <;>
        simp only [hn, hv] at h
      · obtain ⟨dec, hmem, hrest⟩ := ih a h
        exact ⟨dec, List.mem_cons_of_mem _ hmem, hrest⟩
      · obtain ⟨dec, hmem, hrest⟩ := ih a h
        exact ⟨dec, List.mem_cons_of_mem _ hmem, hrest⟩
      · obtain ⟨dec, hmem, hrest⟩ := ih a h
        exact ⟨dec, List.mem_cons_of_mem _ hmem, hrest⟩
      · by_cases ha2 : (vv.kind == "arrow_function") = true
        · rw [if_pos ha2] at h
          refine ⟨d, List.mem_cons_self .., hdk, nn, vv, hn, hv, by simpa using ha2, ?_⟩
          simpa using h.symm
        · rw [if_neg ha2] at h
          obtain ⟨dec, hmem, hrest⟩ := ih a h
          exact ⟨dec, List.mem_cons_of_mem _ hmem, hrest⟩

theorem extractDefinition_js_lexical (node : SyntaxNode) (language : Language)
    (forcedExtern : Bool)
    (hl : language = .typescript ∨ language = .javascript)
    (hknd : node.kind = "lexical_declaration") :
    extractDefinition node language forcedExtern =
      constBranch.jsConstBranch language false forcedExtern node := by
  have hne : isExportStatement node = false := by
    simp [isExportStatement, hknd]
  have hun : unwrapExport node = node := by
    rw [unwrapExport]
    simp [hknd]
  rcases hl with h | h <;> subst h <;>
  · rw [extractDefinition]
    simp [actualNodeOf, exportedOf, externOf, hne, hun, hknd, FUNCTION_TYPES,
      CLASS_TYPES, STRUCT_TYPES, TRAIT_TYPES, INTERFACE_TYPES, TYPE_TYPES,
      ENUM_TYPES, CONST_TYPES, constBranch]

/-- C5: for a non-exported TS/JS `const`/`let` statement the only
definition ever emitted is the statement's first arrow-function binding
and only when its body has strictly more than `MIN_BODY_LINES` lines;
every emitted definition has kind `function` and is non-exported (so a
non-exported binding is never emitted as a constant), the arrow binding
found corresponds to an actual `variable_declarator` child with an
`arrow_function` value, and in the exported expansion a sizeable
arrow-function binding is likewise emitted with kind `function`
whatever the export flag. -/
theorem js_nonexported_const_gating (node : SyntaxNode) (language : Language)
    (forcedExtern : Bool)
    (hl : language = .typescript ∨ language = .javascript)
    (hknd : node.kind = "lexical_declaration") :
    (∀ d ∈ extractDefinition node language forcedExtern,
        d.kind = .function ∧ d.exported = false) ∧
    (∀ d ∈ extractDefinition node language forcedExtern,
        ∃ a, extractArrowFunction node = some a ∧ a.bodyLines > MIN_BODY_LINES ∧
          d = { name := a.name, line := a.line, endLine := a.endLine,
                kind := .function, exported := false }) ∧
    (∀ a, extractArrowFunction node = some a →
      ∃ declarator ∈ node.children, declarator.kind = "variable_declarator" ∧
        ∃ nn vv, declarator.childForFieldName "name" = some nn ∧
          declarator.childForFieldName "value" = some vv ∧
          vv.kind = "arrow_function" ∧
          a = { name := nn.text, line := node.startRow + 1,
                endLine := node.endRow + 1, bodyLines := getBodyLineCount vv }) ∧
    (∀ (exported externLk : Bool) (child nn vv : SyntaxNode),
      child ∈ node.children → child.kind = "variable_declarator" →
      child.childForFieldName "name" = some nn →
      child.childForFieldName "value" = some vv →
      vv.kind = "arrow_function" → getBodyLineCount vv > MIN_BODY_LINES →
      ({ name := nn.text, line := child.startRow + 1, endLine := child.endRow + 1,
         kind := .function, exported := exported, externLinkage := externLk } : Definition)
        ∈ extractJSDeclarations node language exported externLk) := by
  have hmain : ∀ d ∈ extractDefinition node language forcedExtern,
      ∃ a, extractArrowFunction node = some a ∧ a.bodyLines > MIN_BODY_LINES ∧
        d = { name := a.name, line := a.line, endLine := a.endLine,
              kind := .function, exported := false } := by
    intro d hd
    rw [extractDefinition_js_lexical node language forcedExtern hl hknd] at hd
    rcases ha : extractArrowFunction node with _ | a
    · simp [constBranch.jsConstBranch, ha] at hd
    · by_cases hb : a.bodyLines > MIN_BODY_LINES
      · simp only [constBranch.jsConstBranch, ha, Bool.not_false, if_true,
          gt_iff_lt, hb, if_pos, List.mem_singleton] at hd
        exact ⟨a, rfl, hb, hd⟩
      · simp [constBranch.jsConstBranch, ha, hb] at hd
  refine ⟨?_, hmain, ?_, ?_⟩
  · intro d hd
    obtain ⟨a, _, _, rfl⟩ := hmain d hd
    exact ⟨rfl, rfl⟩
  · intro a ha
    rw [extractArrowFunction] at ha
    rw [if_neg (by simp [hknd])] at ha
    exact extractArrowFunction_go_spec node node.children a ha
  · intro exported externLk child nn vv hmem hck hnn hvv hak hbig
    rw [extractJSDeclarations, if_neg (by simp [hknd])]
    refine List.mem_filterMap.mpr ⟨child, hmem, ?_⟩
    have hne2 : (child.kind != "variable_declarator") = false := by simp [hck]
    have hle : ¬ (getBodyLineCount vv ≤ MIN_BODY_LINES) := by omega
    simp [hne2, hnn, hvv, hak, hle]

theorem truthyName_ne {o : Option String} {s : String}
    (h : truthyName o = some s) : s ≠ "" := by
  rcases o with _ | t
  · simp [truthyName] at h
  · rw [truthyName] at h
    by_cases he : t.isEmpty = true
    · rw [if_pos he] at h; cases h
    · rw [if_neg he] at h
      obtain rfl : t = s := by simpa using h
      intro hc; subst hc
      exact he (by decide)

theorem wf_actualNode (language : Language) {node : SyntaxNode}
    (h : wfNode node = true) : wfNode (actualNodeOf language node) = true := by
  cases language <;> simp only [actualNodeOf] <;>
    first
      | exact wf_unwrapExport h
      | exact h

theorem createDef_wf (language : Language) (exported externLk : Bool)
    {name : String} (k : DefinitionType) (s e : Nat)
    (hn : name ≠ "") (hse : s ≤ e) :
    1 ≤ (createDef language exported externLk name k (s + 1) (e + 1)).line ∧
    (createDef language exported externLk name k (s + 1) (e + 1)).line ≤
      (createDef language exported externLk name k (s + 1) (e + 1)).endLine ∧
    (createDef language exported externLk name k (s + 1) (e + 1)).name ≠ "" := by
  refine ⟨by simp [createDef], by simp [createDef]; omega, by simpa [createDef] using hn⟩

theorem sizedBranch_wf (language : Language) (exported externLk : Bool)
    {a : SyntaxNode} (k : DefinitionType) (hwa : wfNode a = true) :
    ∀ d ∈ sizedBranch language exported externLk a k,
      1 ≤ d.line ∧ d.line ≤ d.endLine ∧ d.name ≠ "" := by
  intro d hd
  rw [sizedBranch] at hd
  rcases ht : truthyName (extractName a language) with _ | nm <;> simp only [ht] at hd
  · simp at hd
  · by_cases hc : getBodyLineCount a > MIN_BODY_LINES
    · rw [if_pos hc] at hd
      obtain rfl : d = _ := by simpa using hd
      exact createDef_wf language exported externLk k _ _ (truthyName_ne ht) (wf_rows hwa)
    · rw [if_neg hc] at hd; simp at hd

theorem unsizedBranch_wf (language : Language) (exported externLk : Bool)
    {a : SyntaxNode} (k : DefinitionType) (hwa : wfNode a = true) :
    ∀ d ∈ unsizedBranch language exported externLk a k,
      1 ≤ d.line ∧ d.line ≤ d.endLine ∧ d.name ≠ "" := by
  intro d hd
  rw [unsizedBranch] at hd
  rcases ht : truthyName (extractName a language) with _ | nm <;> simp only [ht] at hd
  · simp at hd
  · obtain rfl : d = _ := by simpa using hd
    exact createDef_wf language exported externLk k _ _ (truthyName_ne ht) (wf_rows hwa)

theorem extractJSDeclarations_wf (node : SyntaxNode) (language : Language)
    (exported externLk : Bool) (hwf : wfNode node = true) :
    ∀ d ∈ extractJSDeclarations node language exported externLk,
      1 ≤ d.line ∧ d.line ≤ d.endLine ∧ d.name ≠ "" := by
  intro d hd
  rw [extractJSDeclarations] at hd
  by_cases hk : (node.kind != "lexical_declaration") = true
  · rw [if_pos hk] at hd
    rcases ht : truthyName (extractConstName node language) with _ | nm <;>
      simp only [ht] at hd
    · simp at hd
    · obtain rfl : d = _ := by simpa using hd
      have hrows := wf_rows hwf
      refine ⟨by simp, by simp; omega, by simpa using truthyName_ne ht⟩
  · rw [if_neg hk] at hd
    obtain ⟨child, hcmem, hf⟩ := List.mem_filterMap.mp hd
    have hwc : wfNode child = true := wf_child hwf hcmem
    by_cases hck : (child.kind != "variable_declarator") = true
    · rw [if_pos hck] at hf; cases hf
    · rw [if_neg hck] at hf
      rcases hnn : child.childForFieldName "name" with _ | nn <;>
        simp only [hnn] at hf
      · cases hf
      · have hwn : wfNode nn = true := wf_field hwc hnn
        have hrows := wf_rows hwc
        have htext := wf_text hwn
        have hne : nn.text ≠ "" := by
          intro hc; rw [hc] at htext; exact absurd htext (by decide)
        rcases hvv : child.childForFieldName "value" with _ | vv <;>
          simp only [hvv] at hf
        · rw [if_neg (by decide : ¬ ((false : Bool) = true))] at hf
          obtain rfl : d = _ := by simpa using hf.symm
          exact ⟨by simp, by simp; omega, by simpa using hne⟩
        · by_cases hs : (vv.kind == "arrow_function" &&
              decide (getBodyLineCount vv ≤ MIN_BODY_LINES)) = true
          · rw [if_pos hs] at hf; cases hf
          · rw [if_neg hs] at hf
            obtain rfl : d = _ := by simpa using hf.symm
            exact ⟨by simp, by simp; omega, by simpa using hne⟩

theorem constBranch_wf (language : Language) (exported externLk : Bool)
    {a : SyntaxNode} (hwa : wfNode a = true) :
    ∀ d ∈ constBranch language exported externLk a,
      1 ≤ d.line ∧ d.line ≤ d.endLine ∧ d.name ≠ "" := by
  intro d hd
  have hjs : ∀ (lg : Language),
      d ∈ constBranch.jsConstBranch lg exported externLk a →
      1 ≤ d.line ∧ d.line ≤ d.endLine ∧ d.name ≠ "" := by
    intro lg hd2
    rw [constBranch.jsConstBranch] at hd2
    by_cases he : (!exported) = true
    · rw [if_pos he] at hd2
      rcases ha : extractArrowFunction a with _ | af <;> simp only [ha] at hd2
      · simp at hd2
      · by_cases hb : af.bodyLines > MIN_BODY_LINES
        · rw [if_pos hb] at hd2
          obtain rfl : d = _ := by simpa using hd2
          rw [extractArrowFunction] at ha
          by_cases hlex : (a.kind != "lexical_declaration") = true
          · rw [if_pos hlex] at ha; cases ha
          · rw [if_neg hlex] at ha
            obtain ⟨dec, hdm, hdk, nn, vv, hnn, hvv, hvk, rfl⟩ :=
              extractArrowFunction_go_spec a a.children af ha
            have hwn : wfNode nn = true := wf_field (wf_child hwa hdm) hnn
            have hrows := wf_rows hwa
            have htext := wf_text hwn
            refine ⟨by simp, by simp; omega, ?_⟩
            simp only [ne_eq]
            intro hc
            rw [hc] at htext
            exact absurd htext (by decide)
        · rw [if_neg hb] at hd2; simp at hd2
    · rw [if_neg he] at hd2
      exact extractJSDeclarations_wf a lg exported externLk hwa d hd2
  cases language with
  | zig =>
    simp only [constBranch] at hd
    by_cases hg : (!(exported && isZigConst a)) = true
    · rw [if_pos hg] at hd; simp at hd
    · rw [if_neg hg] at hd
      rcases ht : truthyName (extractZigName a) with _ | nm <;> simp only [ht] at hd
      · simp at hd
      · obtain rfl : d = _ := by simpa using hd
        exact createDef_wf .zig exported externLk _ _ _ (truthyName_ne ht) (wf_rows hwa)
  | typescript =>
    simp only [constBranch] at hd
    exact hjs .typescript hd
  | javascript =>
    simp only [constBranch] at hd
    exact hjs .javascript hd
  | python =>
    simp only [constBranch] at hd
    rcases ht : truthyName (extractConstName a .python) with _ | nm <;>
      simp only [ht] at hd
    · simp at hd
    · obtain rfl : d = _ := by simpa using hd
      exact createDef_wf .python exported externLk _ _ _ (truthyName_ne ht) (wf_rows hwa)
  | rust =>
    simp only [constBranch] at hd
    rcases ht : truthyName (extractConstName a .rust) with _ | nm <;>
      simp only [ht] at hd
    · simp at hd
    · obtain rfl : d = _ := by simpa using hd
      exact createDef_wf .rust exported externLk _ _ _ (truthyName_ne ht) (wf_rows hwa)
  | go =>
    simp only [constBranch] at hd
    rcases ht : truthyName (extractConstName a .go) with _ | nm <;>
      simp only [ht] at hd
    · simp at hd
    · obtain rfl : d = _ := by simpa using hd
      exact createDef_wf .go exported externLk _ _ _ (truthyName_ne ht) (wf_rows hwa)
  | cpp =>
    simp only [constBranch] at hd
    rcases ht : truthyName (extractConstName a .cpp) with _ | nm <;>
      simp only [ht] at hd
    · simp at hd
    · obtain rfl : d = _ := by simpa using hd
      exact createDef_wf .cpp exported externLk _ _ _ (truthyName_ne ht) (wf_rows hwa)

theorem extractDefinition_wf (node : SyntaxNode) (language : Language)
    (forcedExtern : Bool) (hwf : wfNode node = true) :
    ∀ d ∈ extractDefinition node language forcedExtern,
      1 ≤ d.line ∧ d.line ≤ d.endLine ∧ d.name ≠ "" := by
  have hwa : wfNode (actualNodeOf language node) = true := wf_actualNode language hwf
  intro d hd
  rw [extractDefinition] at hd
  split at hd
  · exact sizedBranch_wf language _ _ _ hwa d hd
  · split at hd
    · exact sizedBranch_wf language _ _ _ hwa d hd
    · split at hd
      · exact sizedBranch_wf language _ _ _ hwa d hd
      · split at hd
        · exact sizedBranch_wf language _ _ _ hwa d hd
        · split at hd
          · exact unsizedBranch_wf language _ _ _ hwa d hd
          · split at hd
            · exact unsizedBranch_wf language _ _ _ hwa d hd
            · split at hd
              · exact unsizedBranch_wf language _ _ _ hwa d hd
              · split at hd
                · exact constBranch_wf language _ _ hwa d hd
                · simp at hd

theorem nodeDefs_wf (language : Language) {node : SyntaxNode}
    (hwf : wfNode node = true) :
    ∀ d ∈ nodeDefs language node,
      1 ≤ d.line ∧ d.line ≤ d.endLine ∧ d.name ≠ "" := by
  intro d hd
  rw [nodeDefs] at hd
  by_cases hl : (language == .cpp && node.kind == "linkage_specification") = true
  · rw [if_pos hl, foldl_concat_if] at hd
    simp only [List.nil_append] at hd
    obtain ⟨l2, hl2, hdl2⟩ := List.mem_flatten.mp hd
    obtain ⟨inner, hin, hfl⟩ := List.mem_map.mp hl2
    subst hfl
    by_cases hs : (inner.kind == "extern" || inner.kind == "string_literal") = true
    · rw [if_pos hs] at hdl2; cases hdl2
    · rw [if_neg hs] at hdl2
      exact extractDefinition_wf inner .cpp true (wf_child hwf hin) d hdl2
  · rw [if_neg hl] at hd
    exact extractDefinition_wf node language false hwf d hd

/-- C8: assuming the syntax-tree provider's well-formedness contract
(ordered rows, non-empty node text), every `Definition` returned by
`extractDefinitions` satisfies `1 ≤ startLine ≤ endLine` (1-based,
inclusive) and has a non-empty name. -/
theorem definitions_range_invariant (root : SyntaxNode) (language : Language)
    (hwf : wfNode root = true) :
    ∀ d ∈ extractDefinitions root language,
      1 ≤ d.line ∧ d.line ≤ d.endLine ∧ d.name ≠ "" := by
  intro d hd
  rw [extractDefinitions_eq_scanDefs] at hd
  have hfind := scanDefs_find? (allDefs root language) [] d hd
  have hmem : d ∈ allDefs root language := List.mem_of_find?_eq_some hfind
  rw [allDefs_eq_flatten] at hmem
  obtain ⟨l2, hl2, hdl2⟩ := List.mem_flatten.mp hmem
  obtain ⟨n, hn, hfl⟩ := List.mem_map.mp hl2
  subst hfl
  exact nodeDefs_wf language (wf_child hwf hn) d hdl2

/-- C6: when obtaining diff data fails (`getAllDiffData` throws, modelled
by `diffData = none`), the scan proceeds and produces exactly the same
file results — including every file's `Definition` list — as the same
scan with diff disabled outright; diff annotation is strictly additive
and its failure never prevents plain extraction. -/
theorem graceful_diff_absence (opts : GenerateOptions) (env : ScanEnv)
    (hfail : env.diffData = none) :
    scanDirectory { opts with diff := true } env =
      scanDirectory { opts with diff := false } env := by
  rw [scanDirectory, scanDirectory]
  simp [hfail, candidateFiles]

theorem filter_replicate_pos {α : Type} (p : α → Bool) (a : α) (n : Nat)
    (hp : p a = true) : (List.replicate n a).filter p = List.replicate n a := by
  induction n with
  | zero => rfl
  | succ n ih => simp [List.replicate_succ, List.filter_cons, hp, ih]

/-- C7: whenever the candidate file list left after extension, filter
and ignore filtering exceeds `MAX_FILES`, `scanDirectory` returns the
empty result list — and it does so for every possible per-file
file-system outcome and diff outcome, i.e. before any file is read,
parsed, or diffed. -/
theorem too_many_files_guard (opts : GenerateOptions) (env : ScanEnv)
    (hover : (candidateFiles opts env).length > MAX_FILES) :
    scanDirectory opts env = [] ∧
    ∀ (fi2 : String → FileInfo) (dd2 : Option DiffData),
      scanDirectory opts { env with fileInfo := fi2, diffData := dd2 } = [] := by
  constructor
  · rw [scanDirectory, if_pos hover]
  · intro fi2 dd2
    have hover2 : (candidateFiles opts
        { env with fileInfo := fi2, diffData := dd2 }).length > MAX_FILES := hover
    rw [scanDirectory, if_pos hover2]

/-- C9: for a directory that is not inside a git repository or that is
the user's home directory, `generateMap` returns the map holding only
the empty root entry and `generateMapYaml` returns the empty string,
independently of what a scan would have produced (no file is scanned). -/
theorem empty_map_guard (env : LibEnv)
    (hguard : env.isGitRepo = false ∨ env.isHome = true) :
    generateMap env = .dirNode [(getRootName env.dir, .dirNode [])] ∧
    (∀ toYaml : MapNode → String, generateMapYaml env toYaml = "") ∧
    (∀ results2 : List FileResult,
      generateMap { env with scanResults := results2 } = generateMap env ∧
      ∀ toYaml : MapNode → String,
        generateMapYaml { env with scanResults := results2 } toYaml = "") := by
  have hcond : (!env.isGitRepo || env.isHome) = true := by
    rcases hguard with h | h <;> simp [h]
  refine ⟨?_, ?_, ?_⟩
  · rw [generateMap, if_pos hcond]
  · intro toYaml
    rw [generateMapYaml, if_pos hcond]
  · intro results2
    have hcond2 : (!({ env with scanResults := results2 } : LibEnv).isGitRepo ||
        ({ env with scanResults := results2 } : LibEnv).isHome) = true := hcond
    refine ⟨?_, ?_⟩
    · rw [generateMap, if_pos hcond2, generateMap, if_pos hcond]
    · intro toYaml
      rw [generateMapYaml, if_pos hcond2]

/-- Two hunks occupy disjoint new-file regions (the shape git produces:
hunks sorted and non-overlapping). -/
def hunkDisjoint (h1 h2 : DiffHunk) : Prop :=
  h1.newStart + h1.newCount ≤ h2.newStart ∨ h2.newStart + h2.newCount ≤ h1.newStart

theorem hunkDisjoint_symm : Symmetric hunkDisjoint :=
  fun _ _ h => Or.symm h

theorem hunkIntersects_iff (h : DiffHunk) (d : Definition) :
    hunkIntersects h d = true ↔
      0 < min (h.newStart + h.newCount) (d.endLine + 1) - max h.newStart d.line := by
  simp [hunkIntersects, clipLen]

theorem filter_intersect_singleton (d : Definition) (h : DiffHunk) :
    ∀ (hunks : List DiffHunk), h ∈ hunks → hunks.Pairwise hunkDisjoint →
    hunkIntersects h d = true →
    (∀ x ∈ hunks, hunkIntersects x d = true → x = h) →
    hunks.filter (fun x => hunkIntersects x d) = [h] := by
  intro hunks
  induction hunks with
  | nil => intro hmem; simp at hmem
  | cons y ys ih =>
    intro hmem hpw hself honly
    have hcount : h.newCount > 0 := by
      have := (hunkIntersects_iff h d).mp hself
      omega
    have hpw2 := List.pairwise_cons.mp hpw
    rcases List.mem_cons.mp hmem with rfl | hmem2
    · rw [show (h :: ys).filter (fun x => hunkIntersects x d) =
          h :: ys.filter (fun x => hunkIntersects x d) from
          List.filter_cons_of_pos hself]
      have htail : ys.filter (fun x => hunkIntersects x d) = [] := by
        refine List.filter_eq_nil_iff.mpr ?_
        intro x hx
        intro hpx
        have hxh : x = h := honly x (List.mem_cons_of_mem _ hx) hpx
        subst hxh
        have := hpw2.1 x hx
        rw [hunkDisjoint] at this
        omega
      rw [htail]
    · have hyh : y ≠ h := by
        intro hy
        have hdj := hpw2.1 h hmem2
        rw [hy, hunkDisjoint] at hdj
        omega
      have hpy : hunkIntersects y d = false := by
        rcases hb : hunkIntersects y d with _ | _
        · rfl
        · exact absurd (honly y (List.mem_cons_self ..) hb) hyh
      rw [show (y :: ys).filter (fun x => hunkIntersects x d) =
          ys.filter (fun x => hunkIntersects x d) from
          List.filter_cons_of_neg (by simp [hpy])]
      exact ih hmem2 hpw2.2 hself
        (fun x hx hpx => honly x (List.mem_cons_of_mem _ hx) hpx)

/-- C4 (spec-modelled, `git-status.ts` is absent from the sources): a
definition whose span meets no hunk's new-side interval is returned
unchanged with no `DefinitionDiff`; a definition lying entirely inside
one pure-addition hunk (zero old-side lines) of a disjoint hunk list is
marked `added`; any other definition with an intersecting hunk is
marked `updated` with `added`/`deleted` equal to the sums of per-hunk
contributions clipped to the overlap — and a clipped contribution never
reaches the whole hunk's count when the hunk straddles the
definition's boundary. -/
theorem diff_attribution (fd : FileDiff) (d : Definition) :
    (∀ defs : List Definition,
      applyDiffToDefinitions defs fd = defs.map (attributeDiff fd.hunks)) ∧
    ((∀ h ∈ fd.hunks, hunkIntersects h d = false) →
      attributeDiff fd.hunks d = d) ∧
    (∀ h ∈ fd.hunks, fd.hunks.Pairwise hunkDisjoint → h.oldCount = 0 →
      h.newStart ≤ d.line → d.line ≤ d.endLine →
      d.endLine + 1 ≤ h.newStart + h.newCount →
      (attributeDiff fd.hunks d).diff =
        some { status := .added, added := d.endLine + 1 - d.line, deleted := 0 }) ∧
    ((∃ h ∈ fd.hunks, hunkIntersects h d = true) →
      ¬(((fd.hunks.filter (fun h => hunkIntersects h d)).all
           (fun h => h.oldCount == 0)) = true ∧
        coveredByHunks (fd.hunks.filter (fun h => hunkIntersects h d)) d = true) →
      (attributeDiff fd.hunks d).diff =
        some { status := .updated
               added := ((fd.hunks.filter (fun h => hunkIntersects h d)).map
                 (fun h => addedInOverlap h d)).sum
               deleted := ((fd.hunks.filter (fun h => hunkIntersects h d)).map
                 (fun h => deletedInOverlap h d)).sum }) ∧
    (∀ h : DiffHunk, hunkIntersects h d = true →
      addedInOverlap h d ≤ d.endLine + 1 - d.line ∧
      addedInOverlap h d ≤ h.newCount ∧
      deletedInOverlap h d ≤ h.oldCount ∧
      ((h.newStart < d.line ∨ d.endLine + 1 < h.newStart + h.newCount) →
        addedInOverlap h d < h.newCount)) := by
  refine ⟨fun defs => rfl, ?_, ?_, ?_, ?_⟩
  · intro hno
    rw [attributeDiff]
    have hnil : fd.hunks.filter (fun h => hunkIntersects h d) = [] :=
      List.filter_eq_nil_iff.mpr (fun x hx => by simp [hno x hx])
    rw [hnil]
    simp
  · intro h hmem hpw hold hs1 hs2 hs3
    have hself : hunkIntersects h d = true := by
      rw [hunkIntersects_iff]
      omega
    have honly : ∀ x ∈ fd.hunks, hunkIntersects x d = true → x = h := by
      intro x hx hpx
      by_cases hxh : x = h
      · exact hxh
      · exfalso
        have hdisj := hpw.forall hunkDisjoint_symm hx hmem hxh
        have hx2 := (hunkIntersects_iff x d).mp hpx
        rw [hunkDisjoint] at hdisj
        omega
    have hfilter := filter_intersect_singleton d h fd.hunks hmem hpw hself honly
    rw [attributeDiff, hfilter]
    have hcov : coveredByHunks [h] d = true := by
      rw [coveredByHunks]
      refine List.all_eq_true.mpr ?_
      intro ln hln
      rw [List.mem_range'_1] at hln
      simp only [List.any_cons, List.any_nil, Bool.or_false]
      have h1 : h.newStart ≤ ln := by omega
      have h2 : ln < h.newStart + h.newCount := by omega
      simp [h1, h2]
    have hadded : addedInOverlap h d = d.endLine + 1 - d.line := by
      rw [addedInOverlap, clipLen]
      omega
    have hdeleted : deletedInOverlap h d = 0 := by
      rw [deletedInOverlap, clipLen]
      omega
    simp [hcov, hadded, hdeleted, hold]
  · rintro ⟨h, hmem, hint⟩ hnot
    have hne : (fd.hunks.filter (fun h => hunkIntersects h d)).isEmpty = false := by
      rcases hb : (fd.hunks.filter (fun h => hunkIntersects h d)).isEmpty with _ | _
      · rfl
      · rw [List.isEmpty_iff] at hb
        have : h ∈ fd.hunks.filter (fun h => hunkIntersects h d) :=
          List.mem_filter.mpr ⟨hmem, hint⟩
        rw [hb] at this
        simp at this
    rcases ha : (fd.hunks.filter (fun h => hunkIntersects h d)).all
        (fun h => h.oldCount == 0) with _ | _
    · simp [attributeDiff, hne, ha]
    · rcases hc : coveredByHunks (fd.hunks.filter (fun h => hunkIntersects h d)) d
        with _ | _
      · simp [attributeDiff, hne, ha, hc]
      · exact absurd ⟨ha, hc⟩ hnot
  · intro h hint
    have h1 := (hunkIntersects_iff h d).mp hint
    refine ⟨?_, ?_, ?_, ?_⟩
    · rw [addedInOverlap, clipLen]; omega
    · rw [addedInOverlap, clipLen]; omega
    · rw [deletedInOverlap, clipLen]; omega
    · intro hstraddle
      rw [addedInOverlap, clipLen]
      omega

/-- A sample identifier node. -/
def identNode (s : String) (r : Nat) : SyntaxNode :=
  .mk "identifier" s r r [] []

/-- A sample Python function definition spanning rows `r0..r1`. -/
def pyFun (nm : String) (r0 r1 : Nat) : SyntaxNode :=
  .mk "function_definition" "def" r0 r1 [identNode nm r0] []

/-- A sample module with two same-named top-level functions. -/
def sampleRoot : SyntaxNode :=
  .mk "module" "m" 0 20 [pyFun "f" 0 6, pyFun "f" 8 15] []

/-- The definition the first of the two same-named functions yields. -/
def sampleDef : Definition :=
  { name := "f", line := 1, endLine := 7, kind := .function, exported := false }

theorem extractDefinitions_dedup_first_witness :
    ((extractDefinitions sampleRoot .python).map Definition.name).Nodup ∧
    (allDefs sampleRoot .python).find? (fun e => e.name == sampleDef.name) =
      some sampleDef ∧
    (∃ d2 ∈ extractDefinitions sampleRoot .python, d2.name = sampleDef.name) := by
  obtain ⟨h1, h2, h3⟩ := extractDefinitions_dedup_first sampleRoot .python
  exact ⟨h1, h2 sampleDef (by decide), h3 sampleDef (by decide)⟩

theorem size_filter_boundary_witness :
    extractDefinition (pyFun "g" 0 4) .python false = [] ∧
    extractDefinition (pyFun "g" 0 5) .python false ≠ [] := by
  constructor
  · exact ((size_filter_boundary (pyFun "g" 0 4) .python false).1
      (Or.inl (by decide))).2.1 (by decide)
  · exact ((size_filter_boundary (pyFun "g" 0 5) .python false).1
      (Or.inl (by decide))).2.2 ⟨"g", by decide⟩ (by decide)

/-- A sample Rust struct node. -/
def sampleStruct : SyntaxNode :=
  .mk "struct_item" "struct" 0 9 [.mk "type_identifier" "S" 0 0 [] []] []

theorem classification_precedence_witness :
    classify .rust "struct_item" = some Category.aggregateStruct ∧
    extractDefinition sampleStruct .rust false =
      categoryBranch .rust sampleStruct false .aggregateStruct := by
  obtain ⟨h1, h2⟩ := classification_precedence sampleStruct .rust false
  have hc : classify .rust (actualNodeOf .rust sampleStruct).kind =
      some Category.aggregateStruct :=
    (h1 .aggregateStruct).mpr ⟨by decide, by decide⟩
  rw [hc] at h2
  exact ⟨hc, h2⟩

/-- The hunk of spec Scenario B: 9 new lines from line 1, no old lines. -/
def sampleHunk : DiffHunk := { oldStart := 0, oldCount := 0, newStart := 1, newCount := 9 }

/-- The file diff of spec Scenario B. -/
def sampleFileDiff : FileDiff := { path := "a.ts", hunks := [sampleHunk] }

/-- The definition of spec Scenarios A/B: `process` at lines 1–9. -/
def sampleProcess : Definition :=
  { name := "process", line := 1, endLine := 9, kind := .function, exported := false }

theorem diff_attribution_witness :
    (attributeDiff sampleFileDiff.hunks sampleProcess).diff =
      some { status := .added, added := 9, deleted := 0 } ∧
    attributeDiff (FileDiff.hunks { path := "a.ts", hunks := [] }) sampleProcess =
      sampleProcess := by
  constructor
  · exact (diff_attribution sampleFileDiff sampleProcess).2.2.1 sampleHunk
      (by decide) (List.Pairwise.cons (by simp) List.Pairwise.nil)
      (by decide) (by decide) (by decide) (by decide)
  · exact (diff_attribution { path := "a.ts", hunks := [] } sampleProcess).2.1
      (by intro h hmem; simp at hmem)

/-- A sample arrow-function value spanning rows 0–6. -/
def sampleArrowValue : SyntaxNode := .mk "arrow_function" "=>" 0 6 [] []

/-- A declarator binding `run` to the sample arrow function. -/
def sampleDeclarator : SyntaxNode :=
  .mk "variable_declarator" "run" 0 6 []
    [("name", .mk "identifier" "run" 0 0 [] []), ("value", sampleArrowValue)]

/-- A non-exported `const run = () => {...}` statement. -/
def sampleLexical : SyntaxNode :=
  .mk "lexical_declaration" "const" 0 6 [sampleDeclarator] []

/-- The definition the sample arrow binding yields. -/
def sampleRunDef : Definition :=
  { name := "run", line := 1, endLine := 7, kind := .function, exported := false }

theorem js_nonexported_const_gating_witness :
    ∃ a, extractArrowFunction sampleLexical = some a ∧
      a.bodyLines > MIN_BODY_LINES ∧
      sampleRunDef = { name := a.name, line := a.line, endLine := a.endLine,
                       kind := .function, exported := false } :=
  (js_nonexported_const_gating sampleLexical .typescript false
    (Or.inl rfl) rfl).2.1 sampleRunDef (by decide)

/-- A one-file scan environment whose diff provider fails. -/
def sampleScanEnv : ScanEnv :=
  { gitFiles := ["a.ts"]
    fileInfo := fun _ =>
      { markerFound := true
        markerDescription := some "demo"
        tree := some (.mk "program" "p" 0 0 [] []) }
    diffData := none
    matchesFilter := fun _ => true
    matchesIgnore := fun _ => false }

theorem graceful_diff_absence_witness :
    scanDirectory { ignore := [], filter := [], diff := true } sampleScanEnv =
      scanDirectory { ignore := [], filter := [], diff := false } sampleScanEnv :=
  graceful_diff_absence { ignore := [], filter := [], diff := false } sampleScanEnv rfl

/-- A scan environment listing more files than `MAX_FILES`. -/
def hugeScanEnv : ScanEnv :=
  { gitFiles := List.replicate 5000001 "a.ts"
    fileInfo := fun _ => {}
    diffData := none
    matchesFilter := fun _ => true
    matchesIgnore := fun _ => false }

theorem candidateFiles_no_patterns (env : ScanEnv) :
    candidateFiles { ignore := [], filter := [], diff := false } env =
      env.gitFiles.filter (fun f => isSupportedFile f || isReadmeFile f) := rfl

theorem too_many_files_guard_witness :
    scanDirectory { ignore := [], filter := [], diff := false } hugeScanEnv = [] := by
  have hf := filter_replicate_pos (fun f => isSupportedFile f || isReadmeFile f)
    "a.ts" 5000001 (by decide)
  have h1 : candidateFiles { ignore := [], filter := [], diff := false } hugeScanEnv =
      List.replicate 5000001 "a.ts" := by
    rw [candidateFiles_no_patterns]
    exact hf
  refine (too_many_files_guard _ _ ?_).1
  rw [h1, List.length_replicate, MAX_FILES]
  decide

theorem definitions_range_invariant_witness :
    1 ≤ sampleDef.line ∧ sampleDef.line ≤ sampleDef.endLine ∧ sampleDef.name ≠ "" :=
  definitions_range_invariant sampleRoot .python (by decide) sampleDef (by decide)

/-- A library environment outside any git repository. -/
def sampleLibEnv : LibEnv :=
  { isGitRepo := false
    isHome := false
    dir := "repo"
    scanResults := [{ relativePath := "a.ts", description := some "d" }] }

theorem empty_map_guard_witness :
    generateMap sampleLibEnv = .dirNode [(getRootName "repo", .dirNode [])] ∧
    generateMapYaml sampleLibEnv (fun _ => "unused") = "" := by
  obtain ⟨h1, h2, _⟩ := empty_map_guard sampleLibEnv (Or.inl rfl)
  exact ⟨h1, h2 _⟩

/-- A `pub const Config = struct { ... }` Zig declaration. -/
def sampleZigConst : SyntaxNode :=
  .mk "variable_declaration" "pub" 0 9
    [.mk "pub" "pub" 0 0 [] [], .mk "const" "const" 0 0 [] [],
     .mk "identifier" "Config" 0 0 [] [],
     .mk "struct_declaration" "struct" 0 9 [] []] []

theorem zig_const_gating_witness :
    extractDefinition sampleZigConst .zig false =
      [createDef .zig true (externOf .zig sampleZigConst false) "Config"
        ((getZigTypeDeclaration sampleZigConst).getD .const)
        (sampleZigConst.startRow + 1) (sampleZigConst.endRow + 1)] :=
  (zig_const_gating sampleZigConst false rfl).2.1 "Config"
    (by decide) (by decide) (by decide)

end AgentMap
